import Mathlib

/-!
# Verification of the dockstep build engine core

A shallow embedding of the dockstep core: the data model (`Block`, `Project`,
`BlockState`, `ImageRecord`), the content-addressable cache
(`ComputeBlockHash`, `GetCachedDigest`, `SetCachedDigest`, `ClearCache`),
project validation (`Validate`, `checkCircularDependencies`), and the
execution orchestrator (`runBlock`, `resolveParentWithVisited`).

Modelling conventions:
* Go strings are Lean `String`s; Go maps keyed by strings are functions
  `String → Option α`; a file that may be absent is an `Option`.
* The SHA-256 hex digest in `ComputeBlockHash` is modelled by the exact byte
  stream fed to the hasher (SHA-256 is treated as injective): two hashes are
  equal in the model exactly when the hashed byte streams are equal, which for
  the equality direction is also literally true of the real function.
* The container runtime is an oracle (`DockerEnv`); every runtime call the
  engine makes is recorded in an event trace (`DockerOp`).
* The mutually recursive pair `RunBlock` / `resolveParentWithVisited` is
  defined with an explicit fuel parameter; `Res.fuelOut` is a model artifact
  that a fuel-adequacy theorem proves unreachable for fuel that is linear in
  the number of blocks.
* `time.Now()` is a logical clock in the engine state, incremented at each
  read; I/O failures of the local filesystem are not modelled (writes to the
  state directory always succeed).
-/

namespace Dockstep

/-! ## Data model (types/types.go and the engine-era Block fields)

`Block` carries the union of the fields used by the files under audit:
`Network`, `Env`, `Mounts` are consulted by the validator, while
`FromBlockVersion` and `Instructions` are consulted by the hash and the
engine. Fields of the Go structs that no audited function reads
(`Export`, `Workdir`, resource limits, the ephemeral flag) are omitted. -/

/-- Mount represents a volume mount configuration. -/
structure Mount where
  Source : String
  Target : String
  Mode : String
deriving DecidableEq, Repr

/-- Block represents a single build step. -/
structure Block where
  ID : String
  From : String
  FromBlock : String
  FromBlockVersion : String
  Instructions : List String
  Context : String
  Network : String
  Env : List String
  Mounts : List Mount
deriving DecidableEq, Repr

/-- Project represents the complete dockstep configuration. -/
structure Project where
  Version : String
  Name : String
  Blocks : List Block
deriving DecidableEq, Repr

/-- BlockStatus represents the execution status of a block. -/
inductive BlockStatus where
  | pending
  | cached
  | running
  | success
  | failed
  | skipped
deriving DecidableEq, Repr

/-- BlockState represents the execution state of a block (Duration and
Timestamp are ticks of the logical clock). -/
structure BlockState where
  ID : String
  Status : BlockStatus
  Digest : String
  Hash : String
  Timestamp : Nat
  ExitCode : Int
  Duration : Nat
  Error : String
deriving DecidableEq, Repr

/-- ImageRecord represents a single built image for a block. -/
structure ImageRecord where
  Tag : String
  Digest : String
  Timestamp : Nat
  Dockerfile : String
deriving DecidableEq, Repr

/-- RunOptions represents options for running a single block. -/
structure RunOptions where
  Force : Bool
  KeepContainer : Bool
deriving DecidableEq, Repr

/-! ## ComputeBlockHash (store, part_009 lines 226-245)

The Go function feeds, in order, `parentDigest`, `block.ID`, `block.From`,
`block.FromBlock`, `block.Context` and each instruction to a fresh SHA-256
hasher and returns the hex digest. The model returns the concatenated
preimage itself (see the header note on SHA-256). -/

/-- ComputeBlockHash computes a deterministic cache key for a block:
the byte stream hashed is the concatenation, without separators, of the
parent digest, the block id, the `from` reference, the `from_block`
reference, the context path and the instructions. -/
def ComputeBlockHash (block : Block) (parentDigest : String) : String :=
  parentDigest ++ block.ID ++ block.From ++ block.FromBlock ++ block.Context
    ++ String.join block.Instructions

/-! ## Cache index (store/cache.go)

The cache index file `cache/index.json` is an `Option CacheMap`: `none` when
the file does not exist, otherwise the hash-to-digest mapping it decodes to
(the stored `CacheEntry` also repeats the hash, which nothing reads back). -/

/-- CacheMap is the decoded content of the cache index file. -/
def CacheMap : Type := String → Option String

/-- loadCache: a missing file decodes to the empty map (os.IsNotExist branch);
decode errors of an existing file are not modelled. -/
def loadCache (file : Option CacheMap) : CacheMap :=
  file.getD (fun _ => none)

/-- GetCachedDigest looks up a cached digest by hash; mirrors the Go
`(digest, found)` pair, with load failures mapped to `("", false)`. -/
def GetCachedDigest (file : Option CacheMap) (hash : String) : String × Bool :=
  match loadCache file hash with
  | some digest => (digest, true)
  | none => ("", false)

/-- SetCachedDigest loads the index (a failed load falls back to the empty
map), overwrites the one entry for `hash`, and saves the whole index back. -/
def SetCachedDigest (file : Option CacheMap) (hash digest : String) :
    Option CacheMap :=
  some (fun k => if k = hash then some digest else loadCache file k)

/-- ClearCache is `os.Remove` of the index file: removing a file that does
not exist fails with an error. -/
def ClearCache (file : Option CacheMap) : Except String (Option CacheMap) :=
  match file with
  | none => Except.error "remove .dockstep/cache/index.json: no such file or directory"
  | some _ => Except.ok none

/-! ## Project validation (config, part_007)

`Validate` walks the block list once, accumulating the set of block ids seen
so far; note that `validateBlock` receives exactly that prefix set (with the
current block already inserted), so a `from_block` reference is only accepted
when its target appears at the same or an earlier position. -/

/-- validNetworks from types: default, none, host. -/
def validNetworks : List String := ["default", "none", "host"]

/-- validateBlock validates a single block against the ids seen so far
(part_007 lines 51-102, including the network / env / mount checks). -/
def validateBlock (block : Block) (allBlockIDs : List String) : Except String Unit :=
  if block.From = "" && block.FromBlock = "" then
    Except.error "either 'from' or 'from_block' must be specified"
  else if block.From != "" && block.FromBlock != "" then
    Except.error "cannot specify both 'from' and 'from_block'"
  else if block.FromBlock != "" && !(allBlockIDs.contains block.FromBlock) then
    Except.error ("from_block '" ++ block.FromBlock ++ "' does not exist")
  else if block.Network != "" && !(validNetworks.contains block.Network) then
    Except.error ("invalid network mode: " ++ block.Network)
  else
    match block.Env.find? (fun env => !(env.contains '=')) with
    | some env =>
        Except.error ("invalid environment variable format: " ++ env ++ " (must be KEY=VALUE)")
    | none =>
        match block.Mounts.find? (fun m => m.Source = "" || m.Target = "") with
        | some _ => Except.error "mount source and target are required"
        | none => Except.ok ()

/-- validateBlocksLoop is the per-block loop of `Validate`: empty-id check,
duplicate-id check, then `validateBlock` with the prefix id set. -/
def validateBlocksLoop : List Block → List String → Except String Unit
  | [], _ => Except.ok ()
  | block :: rest, seen =>
      if block.ID = "" then Except.error "block ID cannot be empty"
      else if seen.contains block.ID then
        Except.error ("duplicate block ID: " ++ block.ID)
      else
        match validateBlock block (block.ID :: seen) with
        | Except.error e => Except.error ("block " ++ block.ID ++ ": " ++ e)
        | Except.ok _ => validateBlocksLoop rest (block.ID :: seen)

/-- depsOf builds the dependency graph of `checkCircularDependencies`:
blockID to parentBlockID for every block with a `from_block`. The Go map is
modelled as an association list in block-list order (the two differ only for
duplicate ids, which `Validate` has already rejected). -/
def depsOf (blocks : List Block) : List (String × String) :=
  blocks.filterMap (fun b => if b.FromBlock != "" then some (b.ID, b.FromBlock) else none)

/-- depsLookup is map indexing on the modelled dependency graph. -/
def depsLookup (deps : List (String × String)) (id : String) : Option String :=
  (deps.find? (fun p => p.1 = id)).map (fun p => p.2)

/-- hasCycleF is the DFS of part_007 lines 130-146 with an explicit fuel
parameter; `visited` and `recStack` are the two mutated map-sets, threaded
through and returned. `none` is fuel exhaustion, proved unreachable for
fuel larger than the number of dependency entries. -/
def hasCycleF (deps : List (String × String)) :
    Nat → String → List String → List String →
      Option (Bool × List String × List String)
  | 0, _, _, _ => none
  | fuel + 1, blockID, visited, recStack =>
      let visited := blockID :: visited
      let recStack := blockID :: recStack
      match depsLookup deps blockID with
      | some parent =>
          if !(visited.contains parent) then
            match hasCycleF deps fuel parent visited recStack with
            | none => none
            | some (true, v, r) => some (true, v, r)
            | some (false, v, r) => some (false, v, r.erase blockID)
          else if recStack.contains parent then
            some (true, visited, recStack)
          else
            some (false, visited, recStack.erase blockID)
      | none => some (false, visited, recStack.erase blockID)

/-- checkCircGo is the root loop of `checkCircularDependencies`, iterating
the dependency-map keys (modelled in insertion order; the detection result
does not depend on the order). The `none` branch is dead code by the
fuel-adequacy theorem below. -/
def checkCircGo (deps : List (String × String)) :
    List String → List String → List String → Except String Unit
  | [], _, _ => Except.ok ()
  | id :: rest, visited, recStack =>
      if visited.contains id then checkCircGo deps rest visited recStack
      else
        match hasCycleF deps (deps.length + 1) id visited recStack with
        | none => Except.error "circular dependency check exhausted fuel"
        | some (true, _, _) =>
            Except.error "circular dependency detected in block references"
        | some (false, v, r) => checkCircGo deps rest v r

/-- checkCircularDependencies checks for circular dependencies in block
references (part_007 lines 105-127). -/
def checkCircularDependencies (blocks : List Block) : Except String Unit :=
  let deps := depsOf blocks
  checkCircGo deps (deps.map (fun p => p.1)) [] []

/-- Validate validates a project configuration (part_007 lines 11-48). -/
def Validate (project : Project) : Except String Unit :=
  if project.Version = "" then Except.error "version is required"
  else if project.Name = "" then Except.error "name is required"
  else if project.Blocks.isEmpty then Except.error "at least one block is required"
  else
    match validateBlocksLoop project.Blocks [] with
    | Except.error e => Except.error e
    | Except.ok _ => checkCircularDependencies project.Blocks

/-! ## Engine (engine, part_012)

The engine's effects are a pure state transformer over `EngState`. The
container runtime is the oracle `DockerEnv`; every runtime call is appended
to `EngState.trace`. The store directory is `StoreState`; each Go store call
is a field update. -/

/-- DockerOp is one recorded container-runtime call. -/
inductive DockerOp where
  | pull (imageRef : String)
  | inspect (imageRef : String)
  | build (tag : String) (dockerfile : String)
deriving DecidableEq, Repr

/-- DockerEnv is the container-runtime oracle: whether a pull succeeds, what
digest an inspect reports, and what a build of a given Dockerfile produces
(`none` is a build failure) together with the log chunks it streams. -/
structure DockerEnv where
  pullOk : String → Bool
  inspectDigest : String → Option String
  buildResult : String → Option String
  buildLogChunks : String → List String

/-- StoreState is the .dockstep directory: one record per store file family
(part_009). A key that was never written maps to `none`. -/
structure StoreState where
  blockStates : String → Option BlockState
  logFiles : String → Option (List String)
  successLogFiles : String → Option (List String)
  imageDigests : String → Option String
  historyFiles : String → List ImageRecord
  dockerfileSnapshots : String → Option String
  cacheFile : Option CacheMap

/-- EngState is the world the engine mutates: the store directory, the trace
of runtime calls made so far, and the logical clock standing in for
`time.Now()`. -/
structure EngState where
  store : StoreState
  trace : List DockerOp
  clock : Nat

/-- EngCfg is the immutable part of the `Engine` struct: the runtime client,
the project definition, and the build-context path. -/
structure EngCfg where
  docker : DockerEnv
  project : Project
  contextPath : String

/-- upd is pointwise map update (every store write is last-writer-wins on its
key). -/
def upd {α : Type} (m : String → α) (key : String) (val : α) : String → α :=
  fun k => if k = key then val else m k

/-- EngErr is the error taxonomy of the engine; `wrap` is `fmt.Errorf` with
`%w`, keeping the cause. -/
inductive EngErr where
  | notFound (id : String)
  | circular (id : String)
  | pullFailed (imageRef : String)
  | inspectFailed (imageRef : String)
  | parentNotFound (id : String)
  | stateReloadFailed (id : String)
  | parentNoDigest (id : String)
  | noParent
  | buildFailed (id : String)
  | wrap (msg : String) (cause : EngErr)
deriving DecidableEq, Repr

/-- rootCause unwraps all `wrap` layers of an error. -/
def rootCause : EngErr → EngErr
  | EngErr.wrap _ e => rootCause e
  | e => e

/-- message renders an error to the string stored in `BlockState.Error`. -/
def message : EngErr → String
  | EngErr.notFound id => "block " ++ id ++ " not found"
  | EngErr.circular id => "circular dependency detected: block " ++ id ++ " depends on itself"
  | EngErr.pullFailed imageRef => "failed to pull image " ++ imageRef
  | EngErr.inspectFailed imageRef => "failed to inspect image " ++ imageRef
  | EngErr.parentNotFound id => "parent block " ++ id ++ " not found in project"
  | EngErr.stateReloadFailed id => "failed to reload state for parent block " ++ id
  | EngErr.parentNoDigest id => "parent block " ++ id ++ " still has no digest after execution"
  | EngErr.noParent => "block has no parent specified"
  | EngErr.buildFailed _ => "failed to build image"
  | EngErr.wrap msg e => msg ++ ": " ++ message e

/-- Res is the outcome of an engine call; `fuelOut` is the model artifact for
exhausted fuel (see the fuel-adequacy theorem). -/
inductive Res (α : Type) where
  | ok (val : α)
  | err (e : EngErr)
  | fuelOut
deriving DecidableEq, Repr

/-- findBlock is the block-lookup loop (first block with the given id). -/
def findBlock (project : Project) (id : String) : Option Block :=
  project.Blocks.find? (fun b => b.ID = id)

/-- emptyBlockState is the zero `types.BlockState` the resolver substitutes
when the parent's state file does not exist. -/
def emptyBlockState (id : String) : BlockState :=
  { ID := id, Status := BlockStatus.pending, Digest := "", Hash := "",
    Timestamp := 0, ExitCode := 0, Duration := 0, Error := "" }

/-- saveBlockState is `Store.SaveBlockState` (part_009 lines 88-91):
overwrite the one state record for `id`. -/
def saveBlockState (id : String) (st : BlockState) (s : EngState) : EngState :=
  { s with store := { s.store with blockStates := upd s.store.blockStates id (some st) } }

/-- clearLogs truncates the log file for `id` to zero length, creating it. -/
def clearLogs (id : String) (s : EngState) : EngState :=
  { s with store := { s.store with logFiles := upd s.store.logFiles id (some []) } }

/-- appendLogs appends chunks to the log file for `id`, creating it. -/
def appendLogs (id : String) (chunks : List String) (s : EngState) : EngState :=
  { s with store := { s.store with
      logFiles := upd s.store.logFiles id (some ((s.store.logFiles id).getD [] ++ chunks)) } }

/-- saveSuccessfulLogs overwrites the `.success.log` file for `id`. -/
def saveSuccessfulLogs (id : String) (logs : List String) (s : EngState) : EngState :=
  { s with store := { s.store with successLogFiles := upd s.store.successLogFiles id (some logs) } }

/-- saveImageDigest overwrites the `.digest` file for `id`. -/
def saveImageDigest (id digest : String) (s : EngState) : EngState :=
  { s with store := { s.store with imageDigests := upd s.store.imageDigests id (some digest) } }

/-- saveDockerfileSnapshot stores the Dockerfile content keyed by digest. -/
def saveDockerfileSnapshot (digest content : String) (s : EngState) : EngState :=
  { s with store := { s.store with
      dockerfileSnapshots := upd s.store.dockerfileSnapshots digest (some content) } }

/-- saveImageHistory appends one record to the history file for `id`. -/
def saveImageHistory (id : String) (rec : ImageRecord) (s : EngState) : EngState :=
  { s with store := { s.store with
      historyFiles := upd s.store.historyFiles id (s.store.historyFiles id ++ [rec]) } }

/-- setCacheFile replaces the cache index file. -/
def setCacheFile (file : Option CacheMap) (s : EngState) : EngState :=
  { s with store := { s.store with cacheFile := file } }

/-- isTagChar: the characters a Docker tag may contain, `[a-z0-9._-]`. -/
def isTagChar (c : Char) : Bool :=
  (Char.isLower c && Char.isAlpha c) || Char.isDigit c || c = '.' || c = '_' || c = '-'

/-- collapseHyphens replaces every run of consecutive hyphens by one. -/
def collapseHyphens : List Char → List Char
  | [] => []
  | '-' :: rest =>
      match collapseHyphens rest with
      | '-' :: tail => '-' :: tail
      | tail => '-' :: tail
  | c :: rest => c :: collapseHyphens rest

/-- sanitizeForDockerTag converts a block ID to a valid Docker image tag
(part_012 lines 362-384): lowercase, map invalid characters to hyphens,
collapse hyphen runs, trim hyphens, and guarantee a non-empty,
alphanumeric-leading result. -/
def sanitizeForDockerTag (blockID : String) : String :=
  let lowered := blockID.data.map Char.toLower
  let replaced := lowered.map (fun c => if isTagChar c then c else '-')
  let collapsed := collapseHyphens replaced
  let trimmed := ((collapsed.dropWhile (fun c => c = '-')).reverse.dropWhile (fun c => c = '-')).reverse
  let sanitized := String.mk trimmed
  let sanitized := if sanitized = "" then "block" else sanitized
  let first := sanitized.data.headD ' '
  if (first.isLower && first.isAlpha) || first.isDigit then sanitized
  else "block-" ++ sanitized

/-- generateDockerfile renders the single-step Dockerfile for a block: the
FROM line, a blank line, then the instructions verbatim. -/
def generateDockerfile (block : Block) (parentImageRef : String) : String :=
  String.intercalate "\n" (("FROM " ++ parentImageRef) :: "" :: block.Instructions)

/-- buildBlock builds a single block and returns the resulting digest
(part_012 lines 387-447): render the Dockerfile, derive a tag from the
sanitized id and the clock, run the runtime build while streaming its log
chunks into the block's log file, and on success record the image digest,
the Dockerfile snapshot keyed by digest, and one appended history record.
The temporary build-context directory handling is filesystem plumbing with
no observable effect here and is not modelled. -/
def buildBlock (cfg : EngCfg) (block : Block) (parentImageRef : String)
    (s : EngState) : Except EngErr String × EngState :=
  let dockerfileContent := generateDockerfile block parentImageRef
  let tag := "dockstep-" ++ sanitizeForDockerTag block.ID ++ "-" ++ toString s.clock
  let s := { s with clock := s.clock + 1 }
  let s := { s with trace := s.trace ++ [DockerOp.build tag dockerfileContent] }
  let s := appendLogs block.ID (cfg.docker.buildLogChunks dockerfileContent) s
  match cfg.docker.buildResult dockerfileContent with
  | none => (Except.error (EngErr.wrap "failed to build image" (EngErr.buildFailed block.ID)), s)
  | some digest =>
      let s := saveImageDigest block.ID digest s
      let s := saveDockerfileSnapshot digest dockerfileContent s
      let s := saveImageHistory block.ID
        { Tag := tag, Digest := digest, Timestamp := s.clock, Dockerfile := dockerfileContent } s
      let s := { s with clock := s.clock + 1 }
      (Except.ok digest, s)

/-- resolveReturn is the tail of the `from_block` branch (part_012 lines
333-355): re-find the parent block; if it has a `from` image use that as the
image reference, otherwise fall back to the digest itself. -/
def resolveReturn (cfg : EngCfg) (block : Block) (digest : String) (s : EngState) :
    Res (String × String) × EngState :=
  match findBlock cfg.project block.FromBlock with
  | none => (Res.err (EngErr.parentNotFound block.FromBlock), s)
  | some parentBlock =>
      if parentBlock.From != "" then (Res.ok (parentBlock.From, digest), s)
      else (Res.ok (digest, digest), s)

/-- resolveBody is the body of `resolveParentWithVisited` (part_012 lines
235-359), abstracted over the recursive entry points `resolveRec` (line 312)
and `runRec` (line 319). The Go `visited` map with its deferred deletion is
threaded as a value passed only downward, which is observationally the same
discipline. -/
def resolveBody (cfg : EngCfg)
    (resolveRec : Block → List String → EngState → Res (String × String) × EngState)
    (runRec : String → RunOptions → EngState → Res Unit × EngState)
    (block : Block) (visited : List String) (s : EngState) :
    Res (String × String) × EngState :=
  if block.From != "" then
    let s := { s with trace := s.trace ++ [DockerOp.pull block.From] }
    if cfg.docker.pullOk block.From then
      let s := { s with trace := s.trace ++ [DockerOp.inspect block.From] }
      match cfg.docker.inspectDigest block.From with
      | some digest => (Res.ok (block.From, digest), s)
      | none => (Res.err (EngErr.inspectFailed block.From), s)
    else
      (Res.err (EngErr.wrap ("failed to pull image " ++ block.From)
        (EngErr.pullFailed block.From)), s)
  else if block.FromBlock != "" then
    if visited.contains block.ID then (Res.err (EngErr.circular block.ID), s)
    else
      let visited := block.ID :: visited
      if block.FromBlockVersion != "" then
        match findBlock cfg.project block.FromBlock with
        | none => (Res.err (EngErr.parentNotFound block.FromBlock), s)
        | some parentBlock =>
            if parentBlock.From != "" then
              (Res.ok (parentBlock.From, block.FromBlockVersion), s)
            else
              (Res.ok (block.FromBlockVersion, block.FromBlockVersion), s)
      else
        let st := (s.store.blockStates block.FromBlock).getD (emptyBlockState block.FromBlock)
        if st.Digest = "" then
          match findBlock cfg.project block.FromBlock with
          | none => (Res.err (EngErr.parentNotFound block.FromBlock), s)
          | some parentBlock =>
              match resolveRec parentBlock visited s with
              | (Res.err e, s) =>
                  (Res.err (EngErr.wrap
                    ("failed to resolve parent dependencies for " ++ block.FromBlock) e), s)
              | (Res.fuelOut, s) => (Res.fuelOut, s)
              | (Res.ok _, s) =>
                  match runRec block.FromBlock { Force := false, KeepContainer := false } s with
                  | (Res.err e, s) =>
                      (Res.err (EngErr.wrap
                        ("failed to execute parent block " ++ block.FromBlock) e), s)
                  | (Res.fuelOut, s) => (Res.fuelOut, s)
                  | (Res.ok _, s) =>
                      match s.store.blockStates block.FromBlock with
                      | none => (Res.err (EngErr.stateReloadFailed block.FromBlock), s)
                      | some st =>
                          if st.Digest = "" then
                            (Res.err (EngErr.parentNoDigest block.FromBlock), s)
                          else resolveReturn cfg block st.Digest s
        else resolveReturn cfg block st.Digest s
  else (Res.err EngErr.noParent, s)

/-- runBody is the body of `RunBlock` (part_012 lines 66-193), abstracted
over the resolver entry point it calls at line 82. The cache-hit branch also
loads and prints the previous logs, a pure read with no state effect. -/
def runBody (cfg : EngCfg)
    (resolveRec : Block → List String → EngState → Res (String × String) × EngState)
    (blockID : String) (opts : RunOptions) (s : EngState) : Res Unit × EngState :=
  match findBlock cfg.project blockID with
  | none => (Res.err (EngErr.notFound blockID), s)
  | some block =>
      match resolveRec block [] s with
      | (Res.err e, s) => (Res.err (EngErr.wrap "failed to resolve parent digest" e), s)
      | (Res.fuelOut, s) => (Res.fuelOut, s)
      | (Res.ok (parentImageRef, parentDigest), s) =>
          let hash := ComputeBlockHash block parentDigest
          if !opts.Force && (GetCachedDigest s.store.cacheFile hash).2 then
            let cachedDigest := (GetCachedDigest s.store.cacheFile hash).1
            let st : BlockState :=
              { ID := blockID, Status := BlockStatus.cached, Digest := cachedDigest,
                Hash := hash, Timestamp := s.clock, ExitCode := 0, Duration := 0, Error := "" }
            (Res.ok (), saveBlockState blockID st { s with clock := s.clock + 1 })
          else
            let st : BlockState :=
              { ID := blockID, Status := BlockStatus.running, Digest := "", Hash := hash,
                Timestamp := s.clock, ExitCode := 0, Duration := 0, Error := "" }
            let s := saveBlockState blockID st { s with clock := s.clock + 1 }
            let s := clearLogs blockID s
            let startClock := s.clock
            match buildBlock cfg block parentImageRef s with
            | (Except.error e, s) =>
                let stFinal :=
                  { st with
                      Status := BlockStatus.failed, Error := message e,
                      ExitCode := 1, Duration := s.clock - startClock }
                (Res.ok (), saveBlockState blockID stFinal s)
            | (Except.ok digest, s) =>
                let s :=
                  match s.store.logFiles blockID with
                  | some logs => if logs.isEmpty then s else saveSuccessfulLogs blockID logs s
                  | none => s
                let stFinal :=
                  { st with
                      Status := BlockStatus.success, Digest := digest,
                      ExitCode := 0, Duration := s.clock - startClock }
                let s := saveBlockState blockID stFinal s
                let s := setCacheFile
                  (SetCachedDigest s.store.cacheFile (ComputeBlockHash block parentDigest) digest) s
                (Res.ok (), s)

/-- engine ties the mutual recursion of `RunBlock` and
`resolveParentWithVisited` by recursion on fuel, returning the pair of
fuel-indexed entry points. -/
def engine (cfg : EngCfg) :
    Nat → (Block → List String → EngState → Res (String × String) × EngState)
      × (String → RunOptions → EngState → Res Unit × EngState)
  | 0 => (fun _ _ s => (Res.fuelOut, s), fun _ _ s => (Res.fuelOut, s))
  | fuel + 1 =>
      let prev := engine cfg fuel
      (fun block visited s => resolveBody cfg prev.1 prev.2 block visited s,
       fun blockID opts s => runBody cfg prev.1 blockID opts s)

/-- resolveParentWithVisited resolves a block's parent image reference and
hashing digest with cycle detection, at the given fuel. -/
def resolveParentWithVisited (cfg : EngCfg) (fuel : Nat) :
    Block → List String → EngState → Res (String × String) × EngState :=
  (engine cfg fuel).1

/-- runBlock executes a single block, at the given fuel. -/
def runBlock (cfg : EngCfg) (fuel : Nat) :
    String → RunOptions → EngState → Res Unit × EngState :=
  (engine cfg fuel).2

/-! ## Specification-side predicates

Boolean predicates used to state the claims; these are written from the
spec's wording, to be compared with the code-derived functions above. -/

/-- idsOf lists the block ids of a block list in order. -/
def idsOf (blocks : List Block) : List String :=
  blocks.map Block.ID

/-- blockOKB restates the per-block acceptance conditions of `validateBlock`
as one boolean: exactly one of from/from_block, a from_block reference inside
`ids`, a valid network mode, well-formed env entries and mounts. -/
def blockOKB (b : Block) (ids : List String) : Bool :=
  !(b.From = "" && b.FromBlock = "") &&
  !(b.From != "" && b.FromBlock != "") &&
  (b.FromBlock = "" || ids.contains b.FromBlock) &&
  (b.Network = "" || validNetworks.contains b.Network) &&
  b.Env.all (fun env => env.contains '=') &&
  b.Mounts.all (fun m => m.Source != "" && m.Target != "")

/-- validLoopSpec restates `validateBlocksLoop`: nonempty ids, no duplicate
against the ids seen so far, and `blockOKB` against the prefix including the
current block (this is the reference set the code actually uses). -/
def validLoopSpec : List Block → List String → Bool
  | [], _ => true
  | b :: rest, seen =>
      b.ID != "" && !(seen.contains b.ID) && blockOKB b (b.ID :: seen) &&
      validLoopSpec rest (b.ID :: seen)

/-- validStrict is `validLoopSpec` with the from_block reference restricted
to strictly earlier blocks (excluding the block itself); self-references are
instead caught later by the cycle check, so acceptance by `Validate` is
equivalent to this strict form. -/
def validStrict : List Block → List String → Bool
  | [], _ => true
  | b :: rest, seen =>
      b.ID != "" && !(seen.contains b.ID) && blockOKB b seen &&
      validStrict rest (b.ID :: seen)

/-- linksB checks that consecutive blocks of the list are linked by
`from_block` edges and that the last block links back to `first`. -/
def linksB : List Block → Block → Bool
  | [], _ => true
  | [b], first => b.FromBlock == first.ID
  | b :: c :: rest, first => b.FromBlock == c.ID && linksB (c :: rest) first

/-- isCycleListB: the nonempty list is a from_block cycle (each block's
`from_block` is the next one's id, wrapping around). -/
def isCycleListB (l : List Block) : Bool :=
  match l with
  | [] => false
  | first :: _ => linksB l first

/-- stateDigestEmpty: the stored BlockState for `id` is missing or carries no
digest (exactly the condition under which the resolver executes the block). -/
def stateDigestEmpty (s : EngState) (id : String) : Prop :=
  ((s.store.blockStates id).getD (emptyBlockState id)).Digest = ""

/-- shallowOK captures that resolving this block's parent requires no
recursion in the given state: an image parent, a version pin, or a parent
block whose stored state already has a digest (with the parent present in
the project). -/
def shallowOK (cfg : EngCfg) (block : Block) (s : EngState) : Prop :=
  block.From ≠ "" ∨
    (block.FromBlock ≠ "" ∧ (findBlock cfg.project block.FromBlock).isSome ∧
      (block.FromBlockVersion ≠ "" ∨
        ∃ st, s.store.blockStates block.FromBlock = some st ∧ st.Digest ≠ ""))

/-- unresolvedCount counts the distinct project block ids not yet in the
visited set; it bounds the remaining depth of parent resolution. -/
def unresolvedCount (cfg : EngCfg) (v : List String) : Nat :=
  ((idsOf cfg.project.Blocks).dedup.filter (fun id => !(v.contains id))).length

/-- chainTo: consecutive blocks of the list are linked by from_block edges
and the last block's from_block is `t`. -/
def chainTo : List Block → String → Prop
  | [], _ => True
  | [b], t => b.FromBlock = t
  | b :: c :: rest, t => b.FromBlock = c.ID ∧ chainTo (c :: rest) t

/-- posIn is the position of the first occurrence of a string in a list
(list length when absent); used as the decreasing measure for backward
from_block references. -/
def posIn : List String → String → Nat
  | [], _ => 0
  | x :: rest, y => if x = y then 0 else posIn rest y + 1

/-! ## Concrete fixtures

Concrete projects, runtime oracles and states used by the counterexamples
and witnesses. -/

/-- blkBase: a block building directly from an external image. -/
def blkBase : Block :=
  { ID := "base", From := "alpine:latest", FromBlock := "", FromBlockVersion := "",
    Instructions := ["RUN echo hi"], Context := "", Network := "", Env := [], Mounts := [] }

/-- blkApp: a block building from `blkBase`. -/
def blkApp : Block :=
  { ID := "app", From := "", FromBlock := "base", FromBlockVersion := "",
    Instructions := ["RUN echo bye"], Context := "", Network := "", Env := [], Mounts := [] }

/-- projW: the two-block project `base` then `app`. -/
def projW : Project := { Version := "1.0", Name := "test", Blocks := [blkBase, blkApp] }

/-- envW: a runtime oracle where every pull succeeds, `alpine:latest`
inspects to a fixed digest, and every build succeeds. -/
def envW : DockerEnv :=
  { pullOk := fun _ => true,
    inspectDigest := fun r => if r = "alpine:latest" then some "sha:alp" else none,
    buildResult := fun _ => some "sha:built",
    buildLogChunks := fun _ => ["chunk1"] }

/-- envFailApp: like `envW` but the build of `blkApp`'s Dockerfile fails. -/
def envFailApp : DockerEnv :=
  { envW with
      buildResult := fun df =>
        if df = "FROM alpine:latest\n\nRUN echo bye" then none else some "sha:built" }

/-- cfgW: engine configuration over `projW` with the always-succeeding
runtime. -/
def cfgW : EngCfg := { docker := envW, project := projW, contextPath := "/proj" }

/-- cfgF: engine configuration over `projW` where building `app` fails. -/
def cfgF : EngCfg := { docker := envFailApp, project := projW, contextPath := "/proj" }

/-- s0: the pristine state: empty store, empty trace, clock zero. -/
def s0 : EngState :=
  { store :=
      { blockStates := fun _ => none, logFiles := fun _ => none,
        successLogFiles := fun _ => none, imageDigests := fun _ => none,
        historyFiles := fun _ => [], dockerfileSnapshots := fun _ => none,
        cacheFile := none },
    trace := [], clock := 0 }

/-- hashBase: the cache hash `base` computes under `envW`. -/
def hashBase : String := ComputeBlockHash blkBase "sha:alp"

/-- sHit: a state whose cache index already contains an entry for
`hashBase`. -/
def sHit : EngState :=
  setCacheFile (SetCachedDigest none hashBase "sha:cached") s0

/-- sPrior: a state where `app` previously succeeded with digest
`sha:oldapp`, recorded both in its BlockState and its image-digest file. -/
def sPrior : EngState :=
  { s0 with store := { s0.store with
      blockStates := upd s0.store.blockStates "app"
        (some { emptyBlockState "app" with Digest := "sha:oldapp", Status := BlockStatus.success }),
      imageDigests := upd s0.store.imageDigests "app" (some "sha:oldapp") } }

/-- blkA and blkB form a two-cycle through from_block edges. -/
def blkA : Block :=
  { ID := "a", From := "", FromBlock := "b", FromBlockVersion := "",
    Instructions := ["RUN echo a"], Context := "", Network := "", Env := [], Mounts := [] }

/-- blkB is the second block of the two-cycle. -/
def blkB : Block :=
  { ID := "b", From := "", FromBlock := "a", FromBlockVersion := "",
    Instructions := ["RUN echo b"], Context := "", Network := "", Env := [], Mounts := [] }

/-- projCyc: the cyclic project a -> b -> a. -/
def projCyc : Project := { Version := "1.0", Name := "t", Blocks := [blkA, blkB] }

/-- cfgCyc: engine configuration over the cyclic project. -/
def cfgCyc : EngCfg := { docker := envW, project := projCyc, contextPath := "/proj" }

/-- sStale: block `a` of the cycle carries a stale recorded digest. -/
def sStale : EngState :=
  { s0 with store := { s0.store with
      blockStates := upd s0.store.blockStates "a"
        (some { emptyBlockState "a" with Digest := "sha:old", Status := BlockStatus.success }) } }

/-- blkPinned: a block pinned to a historical digest of `base`. -/
def blkPinned : Block :=
  { blkApp with ID := "pinned", FromBlockVersion := "sha:epoch1" }

/-- projPin: project containing `base` and the pinned child. -/
def projPin : Project := { Version := "1.0", Name := "t", Blocks := [blkBase, blkPinned] }

/-- cfgPin: engine configuration over `projPin`. -/
def cfgPin : EngCfg := { docker := envW, project := projPin, contextPath := "/proj" }

/-- sNewer: `base` has a current BlockState digest different from the pin. -/
def sNewer : EngState :=
  { s0 with store := { s0.store with
      blockStates := upd s0.store.blockStates "base"
        (some { emptyBlockState "base" with Digest := "sha:epoch9", Status := BlockStatus.success }) } }

/-- blkFromX and blkFromBlockX differ only in which parent field carries the
string "x": an image parent versus a block parent. -/
def blkFromX : Block :=
  { ID := "n", From := "x", FromBlock := "", FromBlockVersion := "",
    Instructions := ["RUN true"], Context := "ctx", Network := "", Env := [], Mounts := [] }

/-- blkFromBlockX is `blkFromX` with the parent moved to `from_block`. -/
def blkFromBlockX : Block :=
  { blkFromX with From := "", FromBlock := "x" }

/-- projFwd: `app` references `base` before it is declared (a forward
from_block reference to a block that exists later in the list). -/
def projFwd : Project := { Version := "1.0", Name := "t", Blocks := [blkApp, blkBase] }

/-- sHitPulled: `sHit` after pulling and inspecting the base image (the
state in which the cache check happens). -/
def sHitPulled : EngState :=
  { sHit with trace := [DockerOp.pull "alpine:latest", DockerOp.inspect "alpine:latest"] }

/-- sBaseDone: `base` already carries a successful digest. -/
def sBaseDone : EngState :=
  { s0 with store := { s0.store with
      blockStates := upd s0.store.blockStates "base"
        (some { emptyBlockState "base" with Digest := "sha:built", Status := BlockStatus.success }) } }

/-- envFailAll: a runtime oracle where pulls succeed but every build fails. -/
def envFailAll : DockerEnv := { envW with buildResult := fun _ => none }

/-- cfgFailAll: engine configuration over `projW` where every build fails. -/
def cfgFailAll : EngCfg := { docker := envFailAll, project := projW, contextPath := "/proj" }

/-- sPulled: `s0` after pulling and inspecting the base image. -/
def sPulled : EngState :=
  { s0 with trace := [DockerOp.pull "alpine:latest", DockerOp.inspect "alpine:latest"] }

/-- sBaseFailed: the state after a failed run of `base` starting from
`sPulled` under the all-builds-fail runtime. -/
def sBaseFailed : EngState :=
  (runBlock cfgFailAll 2 "base" { Force := false, KeepContainer := false } sPulled).2

/-- stBaseFailed: the BlockState that failed run records for `base`. -/
def stBaseFailed : BlockState :=
  { ID := "base", Status := BlockStatus.failed, Digest := "", Hash := hashBase,
    Timestamp := 0, ExitCode := 1, Duration := 1,
    Error := "failed to build image: failed to build image" }

/-! ## Theorems -/

/-- Unfolding law: the resolver at positive fuel is its body over the
entry points at one less fuel. -/
theorem resolve_succ (cfg : EngCfg) (fuel : Nat) :
    resolveParentWithVisited cfg (fuel + 1) =
      resolveBody cfg (resolveParentWithVisited cfg fuel) (runBlock cfg fuel) := rfl

/-- Unfolding law: `runBlock` at positive fuel is its body over the resolver
at one less fuel. -/
theorem run_succ (cfg : EngCfg) (fuel : Nat) :
    runBlock cfg (fuel + 1) = runBody cfg (resolveParentWithVisited cfg fuel) := rfl

/-- At zero fuel the resolver reports fuel exhaustion. -/
theorem resolve_zero (cfg : EngCfg) (b : Block) (v : List String) (s : EngState) :
    resolveParentWithVisited cfg 0 b v s = (Res.fuelOut, s) := rfl

/-- A successful `resolveReturn` passes the digest through unchanged and
does not touch the state. -/
theorem resolveReturn_ok {cfg : EngCfg} {b : Block} {dg : String} {s : EngState}
    {r d : String} {s' : EngState}
    (h : resolveReturn cfg b dg s = (Res.ok (r, d), s')) : d = dg ∧ s' = s := by
  unfold resolveReturn at h
  split at h
  · exact absurd h (by simp)
  · split at h <;>
    · injection h with h1 h2
      injection h1 with h3
      injection h3 with h4 h5
      exact ⟨h5.symm, h2.symm⟩

/-- The hashed byte stream, spelled out at the character-list level. -/
theorem computeBlockHash_data (b : Block) (d : String) :
    (ComputeBlockHash b d).data =
      d.data ++ (b.ID.data ++ (b.From.data ++ (b.FromBlock.data ++ (b.Context.data
        ++ (String.join b.Instructions).data)))) := by
  simp [ComputeBlockHash, String.data_append, List.append_assoc]

/-- Joining a list with one distinguished element splits around it. -/
theorem string_join_split (pre post : List String) (x : String) :
    (String.join (pre ++ x :: post)).data =
      (String.join pre).data ++ (x.data ++ (String.join post).data) := by
  simp [String.join_eq, List.append_assoc]

/-- Middle-segment cancellation for list concatenation. -/
theorem mid_cancel {α : Type} {p s a b : List α} (h : p ++ (a ++ s) = p ++ (b ++ s)) :
    a = b :=
  List.append_cancel_right (List.append_cancel_left h)

/-- Claim C1 (amended): `ComputeBlockHash` is a function of exactly the
parent digest, the block id, the `from` reference, the `from_block`
reference, the context path and the ordered instruction list; and changing
the `from` reference alone, the `from_block` reference alone, the context
path alone, or one single instruction alone changes the hash. (Switching
the declared parent between the two kinds while keeping the same string
does not: see the counterexample.) -/
theorem computeBlockHash_exact_inputs_and_sensitivity :
    (∀ (b₁ b₂ : Block) (d₁ d₂ : String),
        b₁.ID = b₂.ID → b₁.From = b₂.From → b₁.FromBlock = b₂.FromBlock →
        b₁.Context = b₂.Context → b₁.Instructions = b₂.Instructions → d₁ = d₂ →
        ComputeBlockHash b₁ d₁ = ComputeBlockHash b₂ d₂) ∧
    (∀ (b₁ b₂ : Block) (d : String),
        b₁.ID = b₂.ID → b₁.FromBlock = b₂.FromBlock → b₁.Context = b₂.Context →
        b₁.Instructions = b₂.Instructions → b₁.From ≠ b₂.From →
        ComputeBlockHash b₁ d ≠ ComputeBlockHash b₂ d) ∧
    (∀ (b₁ b₂ : Block) (d : String),
        b₁.ID = b₂.ID → b₁.From = b₂.From → b₁.Context = b₂.Context →
        b₁.Instructions = b₂.Instructions → b₁.FromBlock ≠ b₂.FromBlock →
        ComputeBlockHash b₁ d ≠ ComputeBlockHash b₂ d) ∧
    (∀ (b₁ b₂ : Block) (d : String),
        b₁.ID = b₂.ID → b₁.From = b₂.From → b₁.FromBlock = b₂.FromBlock →
        b₁.Instructions = b₂.Instructions → b₁.Context ≠ b₂.Context →
        ComputeBlockHash b₁ d ≠ ComputeBlockHash b₂ d) ∧
    (∀ (b₁ b₂ : Block) (d : String) (pre post : List String) (x y : String),
        b₁.ID = b₂.ID → b₁.From = b₂.From → b₁.FromBlock = b₂.FromBlock →
        b₁.Context = b₂.Context →
        b₁.Instructions = pre ++ x :: post → b₂.Instructions = pre ++ y :: post →
        x ≠ y → ComputeBlockHash b₁ d ≠ ComputeBlockHash b₂ d) := by
  refine ⟨?_, ?_, ?_, ?_, ?_⟩
  · intro b₁ b₂ d₁ d₂ h1 h2 h3 h4 h5 h6
    unfold ComputeBlockHash
    rw [h1, h2, h3, h4, h5, h6]
  · intro b₁ b₂ d h1 h3 h4 h5 hne heq
    apply hne
    have hd := congrArg String.data heq
    rw [computeBlockHash_data, computeBlockHash_data, h1, h3, h4, h5] at hd
    exact String.ext (mid_cancel (List.append_cancel_left hd))
  · intro b₁ b₂ d h1 h2 h4 h5 hne heq
    apply hne
    have hd := congrArg String.data heq
    rw [computeBlockHash_data, computeBlockHash_data, h1, h2, h4, h5] at hd
    exact String.ext (mid_cancel (List.append_cancel_left (List.append_cancel_left hd)))
  · intro b₁ b₂ d h1 h2 h3 h5 hne heq
    apply hne
    have hd := congrArg String.data heq
    rw [computeBlockHash_data, computeBlockHash_data, h1, h2, h3, h5] at hd
    exact String.ext
      (mid_cancel (List.append_cancel_left (List.append_cancel_left (List.append_cancel_left hd))))
  · intro b₁ b₂ d pre post x y h1 h2 h3 h4 h5 h6 hne heq
    apply hne
    have hd := congrArg String.data heq
    rw [computeBlockHash_data, computeBlockHash_data, h1, h2, h3, h4, h5, h6,
      string_join_split, string_join_split] at hd
    have hd₂ :
        (String.join pre).data ++ (x.data ++ (String.join post).data) =
          (String.join pre).data ++ (y.data ++ (String.join post).data) :=
      List.append_cancel_left (List.append_cancel_left (List.append_cancel_left
        (List.append_cancel_left (List.append_cancel_left hd))))
    exact String.ext (mid_cancel hd₂)

/-- Claim C1 counterexample: the two blocks differ in the declared parent
(one declares the image "x", the other the parent block "x"; everything else
is equal), yet their hashes coincide, because the hashed stream concatenates
the `from` and `from_block` fields with no separators or kind tag. -/
theorem computeBlockHash_parent_kind_collision :
    blkFromX.From = "x" ∧ blkFromX.FromBlock = "" ∧
    blkFromBlockX.From = "" ∧ blkFromBlockX.FromBlock = "x" ∧
    blkFromX.ID = blkFromBlockX.ID ∧ blkFromX.Context = blkFromBlockX.Context ∧
    blkFromX.Instructions = blkFromBlockX.Instructions ∧
    ComputeBlockHash blkFromX "d" = ComputeBlockHash blkFromBlockX "d" := by
  refine ⟨rfl, rfl, rfl, rfl, rfl, rfl, rfl, ?_⟩
  decide

/-- Claim C1 witness: the sensitivity parts applied at concrete blocks — a
changed single instruction changes the hash, while a changed field outside
the hashed five (here `Network`) does not. -/
theorem computeBlockHash_sensitivity_witness :
    ComputeBlockHash blkBase "d" ≠
      ComputeBlockHash { blkBase with Instructions := ["RUN echo hi2"] } "d" ∧
    ComputeBlockHash blkBase "d" = ComputeBlockHash { blkBase with Network := "host" } "d" ∧
    ComputeBlockHash blkBase "d" ≠ ComputeBlockHash { blkBase with Context := "sub" } "d" := by
  refine ⟨?_, ?_, ?_⟩
  · exact computeBlockHash_exact_inputs_and_sensitivity.2.2.2.2 _ _ _ [] []
      "RUN echo hi" "RUN echo hi2" rfl rfl rfl rfl rfl rfl (by decide)
  · exact computeBlockHash_exact_inputs_and_sensitivity.1 _ _ _ _ rfl rfl rfl rfl rfl rfl
  · exact computeBlockHash_exact_inputs_and_sensitivity.2.2.2.1 _ _ _ rfl rfl rfl rfl (by decide)

/-- Overwriting the same key twice keeps only the second write. -/
theorem upd_upd_same {α : Type} (m : String → α) (k : String) (a b : α) :
    upd (upd m k a) k b = upd m k b := by
  funext x
  unfold upd
  split <;> rfl

/-- Claim C2 (amended): in an unforced `RunBlock` whose computed hash is in
the cache index at the point after parent resolution, the run performs no
further runtime operation (the trace is exactly the post-resolution trace),
leaves the cache untouched, persists the BlockState as `cached` with the hit
digest and the computed hash, and returns success. Runtime operations
during parent resolution itself (pull, inspect, parent execution) do occur:
see the counterexample. -/
theorem runBlock_cache_hit_no_ops_after_resolution (cfg : EngCfg) (fuel : Nat)
    (id : String) (opts : RunOptions) (b : Block) (ref pd : String) (s s₁ : EngState)
    (hFind : findBlock cfg.project id = some b)
    (hForce : opts.Force = false)
    (hRes : resolveParentWithVisited cfg fuel b [] s = (Res.ok (ref, pd), s₁))
    (hHit : (GetCachedDigest s₁.store.cacheFile (ComputeBlockHash b pd)).2 = true) :
    runBlock cfg (fuel + 1) id opts s =
      (Res.ok (), saveBlockState id
        { ID := id, Status := BlockStatus.cached,
          Digest := (GetCachedDigest s₁.store.cacheFile (ComputeBlockHash b pd)).1,
          Hash := ComputeBlockHash b pd, Timestamp := s₁.clock,
          ExitCode := 0, Duration := 0, Error := "" }
        { s₁ with clock := s₁.clock + 1 }) ∧
    (runBlock cfg (fuel + 1) id opts s).2.trace = s₁.trace ∧
    (runBlock cfg (fuel + 1) id opts s).2.store.cacheFile = s₁.store.cacheFile := by
  have hmain : runBlock cfg (fuel + 1) id opts s =
      (Res.ok (), saveBlockState id
        { ID := id, Status := BlockStatus.cached,
          Digest := (GetCachedDigest s₁.store.cacheFile (ComputeBlockHash b pd)).1,
          Hash := ComputeBlockHash b pd, Timestamp := s₁.clock,
          ExitCode := 0, Duration := 0, Error := "" }
        { s₁ with clock := s₁.clock + 1 }) := by
    rw [run_succ]
    unfold runBody
    simp only [hFind, hRes, hForce, hHit, Bool.not_false, Bool.true_and, if_true]
  exact ⟨hmain, by rw [hmain]; rfl, by rw [hmain]; rfl⟩

/-- Claim C2 counterexample: an unforced invocation whose hash is in the
cache index still performs a `pull` (issued by parent resolution, which runs
before the cache check), refuting that a hash-hit invocation invokes no
Container Runtime mutation operation. -/
theorem runBlock_cache_hit_pulls_during_resolution :
    (GetCachedDigest sHit.store.cacheFile hashBase).2 = true ∧
    (runBlock cfgW 2 "base" { Force := false, KeepContainer := false } sHit).1 = Res.ok () ∧
    ((runBlock cfgW 2 "base" { Force := false, KeepContainer := false } sHit).2.store.blockStates
        "base").map BlockState.Status = some BlockStatus.cached ∧
    (runBlock cfgW 2 "base" { Force := false, KeepContainer := false } sHit).2.trace =
      [DockerOp.pull "alpine:latest", DockerOp.inspect "alpine:latest"] :=
  ⟨rfl, rfl, rfl, rfl⟩

/-- Claim C2 witness: the hit behavior applied at the concrete hit state. -/
theorem runBlock_cache_hit_witness :
    runBlock cfgW 2 "base" { Force := false, KeepContainer := false } sHit =
      (Res.ok (), saveBlockState "base"
        { ID := "base", Status := BlockStatus.cached,
          Digest := (GetCachedDigest sHitPulled.store.cacheFile
            (ComputeBlockHash blkBase "sha:alp")).1,
          Hash := ComputeBlockHash blkBase "sha:alp", Timestamp := sHitPulled.clock,
          ExitCode := 0, Duration := 0, Error := "" }
        { sHitPulled with clock := sHitPulled.clock + 1 }) :=
  (runBlock_cache_hit_no_ops_after_resolution cfgW 1 "base" _ blkBase "alpine:latest"
    "sha:alp" sHit sHitPulled rfl rfl rfl rfl).1

/-- Claim C3 (amended): a `RunBlock` invocation whose build fails returns
success-with-failed-status and, relative to the state after parent
resolution, leaves the cache index, the image-digest records, the image
history and the success-log files untouched — so a subsequent unforced run
re-attempts rather than hitting a cache entry written by the failed run —
but it does overwrite the block's persisted BlockState with a failed record
whose digest is empty (clobbering a previously recorded successful digest
there: see the counterexample). -/
theorem runBlock_failed_frame (cfg : EngCfg) (fuel : Nat)
    (id : String) (opts : RunOptions) (b : Block) (ref pd : String) (s s₁ : EngState)
    (hFind : findBlock cfg.project id = some b)
    (hRes : resolveParentWithVisited cfg fuel b [] s = (Res.ok (ref, pd), s₁))
    (hCond : (!opts.Force && (GetCachedDigest s₁.store.cacheFile (ComputeBlockHash b pd)).2)
      = false)
    (hBuildFail : cfg.docker.buildResult (generateDockerfile b ref) = none) :
    (runBlock cfg (fuel + 1) id opts s).1 = Res.ok () ∧
    (runBlock cfg (fuel + 1) id opts s).2.store.cacheFile = s₁.store.cacheFile ∧
    (runBlock cfg (fuel + 1) id opts s).2.store.imageDigests = s₁.store.imageDigests ∧
    (runBlock cfg (fuel + 1) id opts s).2.store.historyFiles = s₁.store.historyFiles ∧
    (runBlock cfg (fuel + 1) id opts s).2.store.successLogFiles = s₁.store.successLogFiles ∧
    ∃ st, (runBlock cfg (fuel + 1) id opts s).2.store.blockStates =
        upd s₁.store.blockStates id (some st) ∧
      st.Status = BlockStatus.failed ∧ st.Digest = "" ∧
      st.Hash = ComputeBlockHash b pd := by
  rw [run_succ]
  unfold runBody
  simp only [hFind, hRes, hCond, Bool.false_eq_true, if_false]
  unfold buildBlock
  simp only [hBuildFail]
  refine ⟨trivial, rfl, rfl, rfl, rfl, ?_⟩
  simp only [saveBlockState, clearLogs, appendLogs]
  rw [upd_upd_same]
  exact ⟨_, rfl, rfl, rfl, rfl⟩

/-- Claim C3 counterexample: `app` had previously succeeded with digest
`sha:oldapp` recorded in its BlockState; a failed rerun overwrites that
BlockState with status failed and an empty digest, so the block's previously
recorded successful digest is not left unchanged by the failed run (the
separate image-digest record does survive). -/
theorem runBlock_failed_clobbers_blockstate_digest :
    (sPrior.store.blockStates "app").map BlockState.Digest = some "sha:oldapp" ∧
    (runBlock cfgF 4 "app" { Force := false, KeepContainer := false } sPrior).1 = Res.ok () ∧
    ((runBlock cfgF 4 "app" { Force := false, KeepContainer := false } sPrior).2.store.blockStates
        "app").map BlockState.Status = some BlockStatus.failed ∧
    ((runBlock cfgF 4 "app" { Force := false, KeepContainer := false } sPrior).2.store.blockStates
        "app").map BlockState.Digest = some "" ∧
    (runBlock cfgF 4 "app" { Force := false, KeepContainer := false } sPrior).2.store.imageDigests
        "app" = some "sha:oldapp" :=
  ⟨rfl, rfl, rfl, rfl, rfl⟩

/-- Claim C3 witness: the failed-run frame applied to a concrete failing
build of `base`. -/
theorem runBlock_failed_frame_witness :
    (runBlock cfgFailAll 2 "base" { Force := false, KeepContainer := false } s0).1 =
      Res.ok () ∧
    (runBlock cfgFailAll 2 "base" { Force := false, KeepContainer := false }
        s0).2.store.cacheFile = sPulled.store.cacheFile ∧
    ∃ st, (runBlock cfgFailAll 2 "base" { Force := false, KeepContainer := false }
        s0).2.store.blockStates = upd sPulled.store.blockStates "base" (some st) ∧
      st.Status = BlockStatus.failed ∧ st.Digest = "" ∧
      st.Hash = ComputeBlockHash blkBase "sha:alp" := by
  obtain ⟨h1, h2, _, _, _, h6⟩ := runBlock_failed_frame cfgFailAll 1 "base"
    { Force := false, KeepContainer := false } blkBase "alpine:latest" "sha:alp" s0 sPulled
    rfl rfl rfl rfl
  exact ⟨h1, h2, h6⟩

/-- Claim C4 (amended): relative to the state after parent resolution, a
`RunBlock` invocation writes the cache index exactly when it finishes with
status `success`: on success the index becomes `SetCachedDigest` of the
computed hash to the new digest (overwriting any previous entry for that
hash and leaving all other entries as they were), and on a failed build the
index is bit-for-bit unchanged. Parent executions nested inside resolution
are their own (successful) invocations and write their own entries: see the
counterexample. -/
theorem runBlock_cache_write_iff_success (cfg : EngCfg) (fuel : Nat)
    (id : String) (opts : RunOptions) (b : Block) (ref pd : String) (s s₁ : EngState)
    (hFind : findBlock cfg.project id = some b)
    (hRes : resolveParentWithVisited cfg fuel b [] s = (Res.ok (ref, pd), s₁))
    (hCond : (!opts.Force && (GetCachedDigest s₁.store.cacheFile (ComputeBlockHash b pd)).2)
      = false) :
    (∀ digest, cfg.docker.buildResult (generateDockerfile b ref) = some digest →
      (runBlock cfg (fuel + 1) id opts s).1 = Res.ok () ∧
      (runBlock cfg (fuel + 1) id opts s).2.store.cacheFile =
        SetCachedDigest s₁.store.cacheFile (ComputeBlockHash b pd) digest ∧
      GetCachedDigest (runBlock cfg (fuel + 1) id opts s).2.store.cacheFile
        (ComputeBlockHash b pd) = (digest, true) ∧
      (∀ h', h' ≠ ComputeBlockHash b pd →
        GetCachedDigest (runBlock cfg (fuel + 1) id opts s).2.store.cacheFile h' =
          GetCachedDigest s₁.store.cacheFile h') ∧
      ∃ st, (runBlock cfg (fuel + 1) id opts s).2.store.blockStates id = some st ∧
        st.Status = BlockStatus.success ∧ st.Digest = digest) ∧
    (cfg.docker.buildResult (generateDockerfile b ref) = none →
      (runBlock cfg (fuel + 1) id opts s).2.store.cacheFile = s₁.store.cacheFile ∧
      GetCachedDigest (runBlock cfg (fuel + 1) id opts s).2.store.cacheFile
          (ComputeBlockHash b pd) =
        GetCachedDigest s₁.store.cacheFile (ComputeBlockHash b pd)) := by
  have hid : b.ID = id := by
    have h := List.find?_some hFind
    simpa using h
  constructor
  · intro digest hBuild
    rw [run_succ]
    unfold runBody
    simp only [hFind, hRes, hCond, Bool.false_eq_true, if_false]
    unfold buildBlock
    simp only [hBuild, hid, saveBlockState, clearLogs, appendLogs, upd, setCacheFile,
      saveImageDigest, saveDockerfileSnapshot, saveImageHistory, saveSuccessfulLogs,
      List.nil_append, if_pos]
    refine ⟨trivial, ?_, ?_, ?_, ?_⟩
    · split <;> rfl
    · split <;> · simp [GetCachedDigest, SetCachedDigest, loadCache]
    · intro h' hne
      split <;> · simp [GetCachedDigest, SetCachedDigest, loadCache, hne]
    · split <;>
      · exact ⟨_, rfl, rfl, rfl⟩
  · intro hBuildFail
    rw [run_succ]
    unfold runBody
    simp only [hFind, hRes, hCond, Bool.false_eq_true, if_false]
    unfold buildBlock
    simp only [hBuildFail]
    exact ⟨rfl, rfl⟩

/-- Claim C4 counterexample: an invocation of `RunBlock "app"` that finishes
with status `failed` does not leave every cache entry as it was — the
successful execution of the parent `base`, performed inside parent
resolution, created a cache entry for the parent's hash that was absent at
the start of the invocation. -/
theorem runBlock_failed_with_parent_cache_write :
    ((runBlock cfgF 4 "app" { Force := false, KeepContainer := false }
        s0).2.store.blockStates "app").map BlockState.Status = some BlockStatus.failed ∧
    GetCachedDigest s0.store.cacheFile hashBase = ("", false) ∧
    GetCachedDigest (runBlock cfgF 4 "app" { Force := false, KeepContainer := false }
        s0).2.store.cacheFile hashBase = ("sha:built", true) :=
  ⟨rfl, rfl, rfl⟩

/-- Claim C4 witness: a successful run writes its hash entry; a failed run
leaves the post-resolution cache untouched. -/
theorem runBlock_cache_write_witness :
    GetCachedDigest (runBlock cfgW 2 "base" { Force := false, KeepContainer := false }
        s0).2.store.cacheFile hashBase = ("sha:built", true) ∧
    (runBlock cfgFailAll 2 "base" { Force := false, KeepContainer := false }
        s0).2.store.cacheFile = sPulled.store.cacheFile := by
  constructor
  · exact ((runBlock_cache_write_iff_success cfgW 1 "base"
      { Force := false, KeepContainer := false } blkBase "alpine:latest" "sha:alp" s0 sPulled
      rfl rfl rfl).1 "sha:built" rfl).2.2.1
  · exact ((runBlock_cache_write_iff_success cfgFailAll 1 "base"
      { Force := false, KeepContainer := false } blkBase "alpine:latest" "sha:alp" s0 sPulled
      rfl rfl rfl).2 rfl).1

/-- Claim C7: for a block with `from_block` and `from_block_version` both
set (and its parent present in the project), parent resolution returns the
pinned digest as the hashing input, leaves the state completely unchanged
(no runtime calls, no block executed), and does so regardless of the parent
block's current BlockState digest, which the quantified state `s` may carry
arbitrarily. -/
theorem resolve_pinned_returns_pin (cfg : EngCfg) (fuel : Nat) (b parentBlock : Block)
    (visited : List String) (s : EngState)
    (hFrom : b.From = "") (hFB : b.FromBlock ≠ "") (hPin : b.FromBlockVersion ≠ "")
    (hVis : visited.contains b.ID = false)
    (hFind : findBlock cfg.project b.FromBlock = some parentBlock) :
    resolveParentWithVisited cfg (fuel + 1) b visited s =
      (Res.ok ((if parentBlock.From != "" then parentBlock.From else b.FromBlockVersion),
        b.FromBlockVersion), s) := by
  rw [resolve_succ]
  unfold resolveBody
  rw [hFrom, hFind, hVis]
  simp only [bne_self_eq_false, Bool.false_eq_true, if_false, ne_eq, hFB, hPin,
    bne_iff_ne, not_false_eq_true, if_true, Bool.not_false, if_neg, Bool.false_eq_true]
  split <;> rfl

/-- Claim C7 witness: the pinned child resolves to the pin `sha:epoch1`
against a parent whose current BlockState digest is `sha:epoch9`, with
untouched state. -/
theorem resolve_pinned_witness :
    blkPinned.FromBlockVersion = "sha:epoch1" ∧
    (sNewer.store.blockStates "base").map BlockState.Digest = some "sha:epoch9" ∧
    resolveParentWithVisited cfgPin 1 blkPinned [] sNewer =
      (Res.ok ((if blkBase.From != "" then blkBase.From else blkPinned.FromBlockVersion),
        blkPinned.FromBlockVersion), sNewer) :=
  ⟨rfl, rfl,
    resolve_pinned_returns_pin cfgPin 0 blkPinned blkBase [] sNewer rfl (by decide)
      (by decide) rfl rfl⟩

/-- Claim C8: for an unpinned block parent, (1) a successful resolution
never returns an empty digest — every success path re-checks the stored
digest; and (2) on the path that recursively resolves the parent's own
parent and then executes the parent, a reloaded state that still has no
digest is a fatal `parentNoDigest` error. -/
theorem resolve_unpinned_digest_nonempty (cfg : EngCfg) :
    (∀ (fuel : Nat) (b : Block) (visited : List String) (s : EngState)
        (ref d : String) (s' : EngState),
        b.From = "" → b.FromBlockVersion = "" →
        resolveParentWithVisited cfg fuel b visited s = (Res.ok (ref, d), s') →
        d ≠ "") ∧
    (∀ (fuel : Nat) (b parentBlock : Block) (visited : List String)
        (s s₁ s₂ : EngState) (pr : String × String) (st' : BlockState),
        b.From = "" → b.FromBlock ≠ "" → b.FromBlockVersion = "" →
        visited.contains b.ID = false →
        stateDigestEmpty s b.FromBlock →
        findBlock cfg.project b.FromBlock = some parentBlock →
        resolveParentWithVisited cfg fuel parentBlock (b.ID :: visited) s = (Res.ok pr, s₁) →
        runBlock cfg fuel b.FromBlock { Force := false, KeepContainer := false } s₁ =
          (Res.ok (), s₂) →
        s₂.store.blockStates b.FromBlock = some st' →
        st'.Digest = "" →
        resolveParentWithVisited cfg (fuel + 1) b visited s =
          (Res.err (EngErr.parentNoDigest b.FromBlock), s₂)) := by
  constructor
  · intro fuel b visited s ref d s' hFrom hPin h
    cases fuel with
    | zero => exact absurd (resolve_zero cfg b visited s ▸ h) (by simp)
    | succ n =>
      rw [resolve_succ] at h
      unfold resolveBody at h
      rw [hFrom, hPin] at h
      simp only [bne_self_eq_false, Bool.false_eq_true, if_false] at h
      split at h
      · split at h
        · exact absurd h (by simp)
        · split at h
          · split at h
            · exact absurd h (by simp)
            · split at h
              · exact absurd h (by simp)
              · exact absurd h (by simp)
              · split at h
                · exact absurd h (by simp)
                · exact absurd h (by simp)
                · split at h
                  · exact absurd h (by simp)
                  · split at h
                    · exact absurd h (by simp)
                    · rename_i hD
                      obtain ⟨hd, _⟩ := resolveReturn_ok h
                      exact hd ▸ hD
          · rename_i hD
            obtain ⟨hd, _⟩ := resolveReturn_ok h
            exact hd ▸ hD
      · exact absurd h (by simp)
  · intro fuel b parentBlock visited s s₁ s₂ pr st' hFrom hFB hPin hVis hEmpty hFind
      hRes hRun hReload hStillEmpty
    rw [resolve_succ]
    unfold resolveBody
    rw [hFrom, hPin, hVis]
    unfold stateDigestEmpty at hEmpty
    simp only [bne_self_eq_false, Bool.false_eq_true, if_false, Bool.not_false, if_true,
      hEmpty, if_pos, hFind, hRes, hRun, hReload, hStillEmpty, ne_eq, hFB, bne_iff_ne,
      not_false_eq_true]

/-- Claim C8 witness: part one applied where the parent already has a
digest (`sha:built` is returned and is nonempty), and part two applied to
the all-builds-fail runtime, where `base` executes, stays digestless, and
resolution of `app` fails with `parentNoDigest`. -/
theorem resolve_unpinned_witness :
    ("sha:built" : String) ≠ "" ∧
    resolveParentWithVisited cfgFailAll 3 blkApp [] s0 =
      (Res.err (EngErr.parentNoDigest "base"), sBaseFailed) := by
  constructor
  · exact (resolve_unpinned_digest_nonempty cfgW).1 1 blkApp [] sBaseDone
      "alpine:latest" "sha:built" sBaseDone rfl rfl rfl
  · exact (resolve_unpinned_digest_nonempty cfgFailAll).2 2 blkApp blkBase [] s0 sPulled
      sBaseFailed ("alpine:latest", "sha:alp") stBaseFailed rfl (by decide) rfl rfl rfl
      rfl rfl rfl rfl rfl

/-- Claim C9: after `SetCachedDigest hash digest`, looking up `hash` returns
`(digest, true)`, and looking up any other hash returns exactly what it
returned before the write. -/
theorem setCachedDigest_get_set_frame (file : Option CacheMap) (hash digest h' : String)
    (hne : h' ≠ hash) :
    GetCachedDigest (SetCachedDigest file hash digest) hash = (digest, true) ∧
    GetCachedDigest (SetCachedDigest file hash digest) h' = GetCachedDigest file h' := by
  constructor
  · simp [GetCachedDigest, SetCachedDigest, loadCache]
  · simp [GetCachedDigest, SetCachedDigest, loadCache, hne]

/-- Claim C9 witness: the get-after-set law and the frame law at concrete
hashes, on top of the empty cache file. -/
theorem setCachedDigest_witness :
    GetCachedDigest (SetCachedDigest none "h1" "d1") "h1" = ("d1", true) ∧
    GetCachedDigest (SetCachedDigest none "h1" "d1") "h2" = GetCachedDigest none "h2" :=
  setCachedDigest_get_set_frame none "h1" "d1" "h2" (by decide)

/-- Claim C10: `ClearCache` on a store whose cache index file does not exist
returns an error, while clearing an existing file succeeds and removes it —
so clearing twice in a row fails the second time. -/
theorem clearCache_missing_file_errors :
    (∃ e, ClearCache (none : Option CacheMap) = Except.error e) ∧
    ∀ m : CacheMap, ClearCache (some m) = Except.ok none :=
  ⟨⟨_, rfl⟩, fun _ => rfl⟩



/-- validateBlock accepts exactly the blocks satisfying `blockOKB`. -/
theorem validateBlock_ok_iff (b : Block) (ids : List String) :
    validateBlock b ids = Except.ok () ↔ blockOKB b ids = true := by
  unfold validateBlock blockOKB
  split_ifs with h1 h2 h3 h4
  · simp_all
  · simp_all
  · simp_all
  · simp_all
  · rcases henv : b.Env.find? (fun env => !(env.contains '=')) with _ | env
    · rcases hm : b.Mounts.find? (fun m => m.Source = "" || m.Target = "") with _ | m
      · simp only [henv, hm]
        constructor
        · intro _
          simp only [Bool.and_eq_true, Bool.not_eq_true']
          refine ⟨⟨⟨⟨⟨?_, ?_⟩, ?_⟩, ?_⟩, ?_⟩, ?_⟩
          · simpa using h1
          · simpa using h2
          · simpa using or_iff_not_imp_left.mpr (by simpa using h3)
          · simpa using or_iff_not_imp_left.mpr (by simpa using h4)
          · rw [List.all_eq_true]
            intro env henvm
            have := List.find?_eq_none.mp henv env henvm
            simpa using this
          · rw [List.all_eq_true]
            intro m hmm
            have := List.find?_eq_none.mp hm m hmm
            simp only [Bool.or_eq_true, decide_eq_true_eq, not_or] at this
            simp [bne_iff_ne, this.1, this.2]
        · intro _
          trivial
      · simp only [henv, hm]
        constructor
        · intro h
          exact absurd h (by simp)
        · intro h
          exfalso
          have hmem := List.mem_of_find?_eq_some hm
          have hp := List.find?_some hm
          simp only [Bool.and_eq_true] at h
          have := List.all_eq_true.mp h.2 m hmem
          simp only [Bool.and_eq_true, bne_iff_ne, ne_eq] at this
          simp only [Bool.or_eq_true, decide_eq_true_eq] at hp
          rcases hp with hp | hp
          · exact this.1 hp
          · exact this.2 hp
    · simp only [henv]
      constructor
      · intro h
        exact absurd h (by simp)
      · intro h
        exfalso
        have hmem := List.mem_of_find?_eq_some henv
        have hp := List.find?_some henv
        simp only [Bool.and_eq_true] at h
        have := List.all_eq_true.mp h.1.2 env hmem
        simp only [Bool.not_eq_true'] at hp
        rw [this] at hp
        exact Bool.noConfusion hp



/-- The validation loop accepts exactly `validLoopSpec`. -/
theorem validateBlocksLoop_ok_iff (blocks : List Block) (seen : List String) :
    validateBlocksLoop blocks seen = Except.ok () ↔ validLoopSpec blocks seen = true := by
  induction blocks generalizing seen with
  | nil => simp [validateBlocksLoop, validLoopSpec]
  | cons b rest ih =>
    unfold validateBlocksLoop validLoopSpec
    split_ifs with h1 h2
    · simp_all
    · simp_all
    · rcases hv : validateBlock b (b.ID :: seen) with e | u
      · constructor
        · intro h
          exact absurd h (by simp)
        · intro h
          exfalso
          simp only [Bool.and_eq_true, and_assoc] at h
          have hok := (validateBlock_ok_iff b (b.ID :: seen)).mpr h.2.2.1
          rw [hv] at hok
          exact Except.noConfusion hok
      · cases u
        have hok := (validateBlock_ok_iff b (b.ID :: seen)).mp hv
        rw [ih]
        simp [hok, h1, h2]
        intro _
        simpa using h2

/-- blockOKB is monotone in the reference id set. -/
theorem blockOKB_mono (b : Block) (x : String) (seen : List String)
    (h : blockOKB b seen = true) : blockOKB b (x :: seen) = true := by
  simp only [blockOKB, Bool.and_eq_true, and_assoc] at h ⊢
  obtain ⟨p1, p2, p3, p4, p5, p6⟩ := h
  refine ⟨p1, p2, ?_, p4, p5, p6⟩
  simp only [Bool.or_eq_true, List.elem_iff, List.mem_cons] at p3 ⊢
  tauto

/-- The strict spec implies the loop spec (a strictly-earlier reference is in particular in the prefix-with-self). -/
theorem validLoopSpec_of_validStrict (blocks : List Block) (seen : List String)
    (h : validStrict blocks seen = true) : validLoopSpec blocks seen = true := by
  induction blocks generalizing seen with
  | nil => rfl
  | cons b rest ih =>
    unfold validStrict at h
    unfold validLoopSpec
    simp only [Bool.and_eq_true, and_assoc] at h ⊢
    obtain ⟨p1, p2, p3, p4⟩ := h
    exact ⟨p1, p2, blockOKB_mono b b.ID seen p3, ih _ p4⟩

/-- A strictly valid block list has nonempty, pairwise distinct ids, disjoint from the seen set. -/
theorem validStrict_ids_props (blocks : List Block) (seen : List String)
    (h : validStrict blocks seen = true) :
    (idsOf blocks).Nodup ∧ (∀ id ∈ idsOf blocks, id ∉ seen) ∧
      ∀ b ∈ blocks, b.ID ≠ "" := by
  induction blocks generalizing seen with
  | nil => simp [idsOf]
  | cons b rest ih =>
    unfold validStrict at h
    simp only [Bool.and_eq_true, and_assoc] at h
    obtain ⟨hne, hnotseen, _, hrest⟩ := h
    obtain ⟨ihnodup, ihseen, ihne⟩ := ih _ hrest
    refine ⟨?_, ?_, ?_⟩
    · simp only [idsOf, List.map_cons, List.nodup_cons]
      refine ⟨?_, ihnodup⟩
      intro hmem
      exact absurd (List.mem_cons_self _ _) (ihseen b.ID hmem)
    · intro id hid
      simp only [idsOf, List.map_cons, List.mem_cons] at hid
      rcases hid with rfl | hid
      · simpa using hnotseen
      · intro hseen
        exact ihseen id hid (List.mem_cons_of_mem _ hseen)
    · intro c hc
      rcases List.mem_cons.mp hc with rfl | hc
      · simpa using hne
      · exact ihne c hc



/-- Every block with a from_block contributes its edge to the dependency graph. -/
theorem mem_depsOf {blocks : List Block} {b : Block} (hb : b ∈ blocks)
    (hfb : b.FromBlock ≠ "") : (b.ID, b.FromBlock) ∈ depsOf blocks := by
  unfold depsOf
  rw [List.mem_filterMap]
  exact ⟨b, hb, by simp [hfb]⟩

/-- A successful dependency lookup returns an edge of the graph. -/
theorem depsLookup_mem {deps : List (String × String)} {a p : String}
    (h : depsLookup deps a = some p) : (a, p) ∈ deps := by
  unfold depsLookup at h
  cases hf : deps.find? (fun q => q.1 = a) with
  | none => rw [hf] at h; exact Option.noConfusion h
  | some q =>
    rw [hf] at h
    have hmem := List.mem_of_find?_eq_some hf
    have hp := List.find?_some hf
    simp only [decide_eq_true_eq] at hp
    simp only [Option.map_some'] at h
    injection h with h2
    have hq : q = (a, p) := by
      cases q
      simp only [Prod.mk.injEq]
      exact ⟨hp, h2⟩
    exact hq ▸ hmem

/-- With distinct block ids, a block's dependency entry is exactly its from_block. -/
theorem depsLookup_selfBlock {blocks : List Block} {b : Block}
    (hnodup : (idsOf blocks).Nodup) (hb : b ∈ blocks) (hfb : b.FromBlock ≠ "") :
    depsLookup (depsOf blocks) b.ID = some b.FromBlock := by
  induction blocks with
  | nil => cases hb
  | cons c rest ih =>
    simp only [idsOf, List.map_cons, List.nodup_cons] at hnodup
    rcases List.mem_cons.mp hb with rfl | hb'
    · unfold depsOf depsLookup
      simp only [List.filterMap_cons]
      rw [if_pos (by simpa using hfb)]
      simp [List.find?_cons_of_pos]
    · have hne : c.ID ≠ b.ID := by
        intro he
        exact hnodup.1 (he ▸ (List.mem_map_of_mem Block.ID hb'))
      have ihres := ih hnodup.2 hb'
      unfold depsOf depsLookup at ihres ⊢
      simp only [List.filterMap_cons]
      split
      · exact ihres
      · rename_i pr heq
        split at heq
        · injection heq with heq2
          subst heq2
          rw [List.find?_cons_of_neg]
          · exact ihres
          · simpa using hne
        · exact Option.noConfusion heq

/-- posIn ignores a right extension when the key is in the left part. -/
theorem posIn_append_of_mem {l1 : List String} (l2 : List String) {x : String}
    (h : x ∈ l1) : posIn (l1 ++ l2) x = posIn l1 x := by
  induction l1 with
  | nil => cases h
  | cons a rest ih =>
    unfold posIn
    by_cases hax : a = x
    · simp [hax]
    · have hm : x ∈ rest := by
        rcases List.mem_cons.mp h with rfl | hm
        · exact absurd rfl hax
        · exact hm
      simp only [hax, if_false, List.cons_append]
      rw [ih hm]

/-- posIn of a member is below the list length. -/
theorem posIn_lt_length {l : List String} {x : String} (h : x ∈ l) :
    posIn l x < l.length := by
  induction l with
  | nil => cases h
  | cons a rest ih =>
    unfold posIn
    by_cases hax : a = x
    · simp [hax]
    · simp only [hax, if_false, List.length_cons]
      have : x ∈ rest := by
        rcases List.mem_cons.mp h with rfl | hm
        · exact absurd rfl hax
        · exact hm
      exact Nat.succ_lt_succ (ih this)

/-- posIn of a fresh key appended after a prefix is the prefix length. -/
theorem posIn_append_not_mem {l1 : List String} (l2 : List String) {x : String}
    (h : x ∉ l1) : posIn (l1 ++ x :: l2) x = l1.length := by
  induction l1 with
  | nil => simp [posIn]
  | cons a rest ih =>
    unfold posIn
    have hax : a ≠ x := fun he => h (he ▸ List.mem_cons_self a rest)
    simp only [List.cons_append, hax, if_false, List.length_cons]
    rw [ih (fun hm => h (List.mem_cons_of_mem _ hm))]



/-- Marking one more present id as visited strictly shrinks the unvisited count. -/
theorem filter_notin_cons_length (v : List String) (id : String) (l : List String)
    (hl : l.Nodup) (hmem : id ∈ l) (hid : id ∉ v) :
    (l.filter (fun x => !((id :: v).contains x))).length + 1 ≤
      (l.filter (fun x => !(v.contains x))).length := by
  induction l with
  | nil => cases hmem
  | cons a rest ih =>
    simp only [List.nodup_cons] at hl
    rcases List.mem_cons.mp hmem with rfl | hmem'
    · have hfeq : rest.filter (fun x => !((id :: v).contains x)) =
          rest.filter (fun x => !(v.contains x)) := by
        apply List.filter_congr
        intro x hx
        have hxa : x ≠ id := fun he => hl.1 (he ▸ hx)
        simp [List.elem_iff, hxa]
      simp only [List.filter_cons]
      have h1 : (!((id :: v).contains id)) = false := by simp [List.elem_iff]
      have h2 : (!(v.contains id)) = true := by simp [List.elem_iff, hid]
      rw [h1, h2, hfeq]
      simp
    · have haid : a ≠ id := fun he => hl.1 (he ▸ hmem')
      simp only [List.filter_cons]
      have hcond : (!((id :: v).contains a)) = (!(v.contains a)) := by
        simp [List.elem_iff, haid]
      rw [hcond]
      have hrec := ih hl.2 hmem'
      split <;> simp_all



/-- The DFS never exhausts its fuel when the fuel exceeds the number of unvisited dependency keys. -/
theorem hasCycleF_isSome (deps : List (String × String)) :
    ∀ (fuel : Nat) (id : String) (v r : List String),
      id ∉ v →
      ((deps.map (fun p => p.1)).dedup.filter (fun x => !(v.contains x))).length + 1 ≤ fuel →
      hasCycleF deps fuel id v r ≠ none := by
  intro fuel
  induction fuel with
  | zero =>
    intro id v r _ hf
    omega
  | succ n ih =>
    intro id v r hid hf
    unfold hasCycleF
    cases hdl : depsLookup deps id with
    | none => simp
    | some parent =>
      simp only
      by_cases hpv : (id :: v).contains parent
      · simp only [hpv, Bool.not_true, Bool.false_eq_true, if_false]
        split <;> simp
      · simp only [hpv, Bool.not_false, if_true]
        have hpmem : parent ∉ id :: v := by simpa [List.elem_iff] using hpv
        have hidmem : id ∈ deps.map (fun p => p.1) := by
          have := depsLookup_mem hdl
          exact List.mem_map.mpr ⟨(id, parent), this, rfl⟩
        have hmeasure :
            ((deps.map (fun p => p.1)).dedup.filter
              (fun x => !((id :: v).contains x))).length + 1 ≤ n := by
          have hstep := filter_notin_cons_length v id
            ((deps.map (fun p => p.1)).dedup) (List.nodup_dedup _)
            (List.mem_dedup.mpr hidmem) hid
          omega
        have hrec := ih parent (id :: v) (id :: r) hpmem hmeasure
        cases hres : hasCycleF deps n parent (id :: v) (id :: r) with
        | none => exact absurd hres hrec
        | some res =>
          rcases res with ⟨flag, v', r'⟩
          cases flag <;> simp



/-- In a graph with a self-loop at `t`, the DFS never reports `false` after visiting `t`; started at `t`, it reports a cycle. -/
theorem hasCycleF_selfloop {deps : List (String × String)} {t : String}
    (ht : depsLookup deps t = some t) :
    ∀ (fuel : Nat) (id : String) (v r : List String), t ∉ v →
      hasCycleF deps fuel id v r = none ∨
      (∃ v' r', hasCycleF deps fuel id v r = some (true, v', r')) ∨
      (id ≠ t ∧ ∃ v' r', hasCycleF deps fuel id v r = some (false, v', r') ∧ t ∉ v') := by
  intro fuel
  induction fuel with
  | zero => intro id v r _; exact Or.inl rfl
  | succ n ih =>
    intro id v r htv
    by_cases hidt : id = t
    · subst hidt
      right; left
      unfold hasCycleF
      rw [ht]
      have hc : (id :: v).contains id = true := by simp [List.elem_iff]
      simp only [hc, Bool.not_true, Bool.false_eq_true, if_false]
      have hr : (id :: r).contains id = true := by simp [List.elem_iff]
      rw [hr]
      exact ⟨id :: v, id :: r, by simp⟩
    · unfold hasCycleF
      cases hdl : depsLookup deps id with
      | none =>
        right; right
        refine ⟨hidt, id :: v, (id :: r).erase id, by simp, ?_⟩
        simp only [List.mem_cons, not_or]
        exact ⟨fun he => hidt he.symm, htv⟩
      | some parent =>
        by_cases hpv : (id :: v).contains parent = true
        · simp only [hpv, Bool.not_true, Bool.false_eq_true, if_false]
          by_cases hpr : (id :: r).contains parent = true
          · rw [if_pos hpr]
            exact Or.inr (Or.inl ⟨id :: v, id :: r, rfl⟩)
          · rw [if_neg hpr]
            right; right
            refine ⟨hidt, id :: v, (id :: r).erase id, rfl, ?_⟩
            simp only [List.mem_cons, not_or]
            exact ⟨fun he => hidt he.symm, htv⟩
        · simp only [hpv, Bool.not_false, if_true]
          have htv' : t ∉ id :: v := by
            simp only [List.mem_cons, not_or]
            exact ⟨fun he => hidt he.symm, htv⟩
          rcases ih parent (id :: v) (id :: r) htv' with hrec | ⟨v', r', hrec⟩ |
            ⟨hpt, v', r', hrec, htv''⟩
          · rw [hrec]
            exact Or.inl rfl
          · rw [hrec]
            exact Or.inr (Or.inl ⟨v', r', rfl⟩)
          · rw [hrec]
            exact Or.inr (Or.inr ⟨hidt, v', r'.erase id, rfl, htv''⟩)

/-- The root loop reports an error whenever the graph has a self-loop among its keys. -/
theorem checkCircGo_selfloop_err {deps : List (String × String)} {t : String}
    (ht : depsLookup deps t = some t) :
    ∀ (todo v r : List String), t ∈ todo → t ∉ v →
      ∃ e, checkCircGo deps todo v r = Except.error e := by
  intro todo
  induction todo with
  | nil => intro v r hmem; cases hmem
  | cons id rest ih =>
    intro v r hmem htv
    unfold checkCircGo
    by_cases hiv : v.contains id = true
    · rw [if_pos hiv]
      have hidt : id ≠ t := by
        intro he
        exact htv (he ▸ List.elem_iff.mp hiv)
      have : t ∈ rest := by
        rcases List.mem_cons.mp hmem with rfl | hm
        · exact absurd rfl hidt.symm
        · exact hm
      exact ih v r this htv
    · rw [if_neg hiv]
      rcases hasCycleF_selfloop ht (deps.length + 1) id v r htv with hres | ⟨v', r', hres⟩ |
        ⟨hidt, v', r', hres, htv'⟩
      · rw [hres]
        exact ⟨_, rfl⟩
      · rw [hres]
        exact ⟨_, rfl⟩
      · rw [hres]
        have : t ∈ rest := by
          rcases List.mem_cons.mp hmem with rfl | hm
          · exact absurd rfl (fun he => hidt he)
          · exact hm
        exact ih v' r' this htv'



/-- On a graph whose edges strictly decrease a measure, the DFS reports no cycle and restores the recursion stack. -/
theorem hasCycleF_backward_false {deps : List (String × String)} {pos : String → Nat}
    (hb : ∀ a p, depsLookup deps a = some p → pos p < pos a) :
    ∀ (fuel : Nat) (id : String) (v r : List String),
      id ∉ v → (∀ x ∈ r, pos id < pos x) →
      ((deps.map (fun p => p.1)).dedup.filter (fun x => !(v.contains x))).length + 1 ≤ fuel →
      ∃ v', hasCycleF deps fuel id v r = some (false, v', r) := by
  intro fuel
  induction fuel with
  | zero => intro id v r _ _ hf; omega
  | succ n ih =>
    intro id v r hid hr hf
    unfold hasCycleF
    cases hdl : depsLookup deps id with
    | none =>
      refine ⟨id :: v, ?_⟩
      simp [List.erase_cons_head]
    | some parent =>
      have hpp : pos parent < pos id := hb id parent hdl
      by_cases hpv : (id :: v).contains parent = true
      · simp only [hpv, Bool.not_true, Bool.false_eq_true, if_false]
        have hpr : ¬((id :: r).contains parent = true) := by
          simp only [List.elem_iff, List.mem_cons, not_or]
          constructor
          · intro he
            rw [he] at hpp
            omega
          · intro hm
            have := hr parent hm
            omega
        rw [if_neg hpr]
        exact ⟨id :: v, by simp [List.erase_cons_head]⟩
      · simp only [hpv, Bool.not_false, if_true]
        have hpmem : parent ∉ id :: v := by simpa [List.elem_iff] using hpv
        have hidmem : id ∈ deps.map (fun p => p.1) :=
          List.mem_map.mpr ⟨(id, parent), depsLookup_mem hdl, rfl⟩
        have hmeasure :
            ((deps.map (fun p => p.1)).dedup.filter
              (fun x => !((id :: v).contains x))).length + 1 ≤ n := by
          have hstep := filter_notin_cons_length v id
            ((deps.map (fun p => p.1)).dedup) (List.nodup_dedup _)
            (List.mem_dedup.mpr hidmem) hid
          omega
        have hr' : ∀ x ∈ id :: r, pos parent < pos x := by
          intro x hx
          rcases List.mem_cons.mp hx with rfl | hx'
          · exact hpp
          · exact Nat.lt_trans hpp (hr x hx')
        obtain ⟨v', hrec⟩ := ih parent (id :: v) (id :: r) hpmem hr' hmeasure
        rw [hrec]
        exact ⟨v', by simp [List.erase_cons_head]⟩

/-- On a strictly-decreasing graph the whole cycle check passes. -/
theorem checkCircGo_backward_ok {deps : List (String × String)} (pos : String → Nat)
    (hb : ∀ a p, depsLookup deps a = some p → pos p < pos a) :
    ∀ (todo v : List String), checkCircGo deps todo v [] = Except.ok () := by
  intro todo
  induction todo with
  | nil => intro v; rfl
  | cons id rest ih =>
    intro v
    unfold checkCircGo
    by_cases hiv : v.contains id = true
    · rw [if_pos hiv]
      exact ih v
    · rw [if_neg hiv]
      have hid : id ∉ v := by simpa [List.elem_iff] using hiv
      have hmeasure :
          ((deps.map (fun p => p.1)).dedup.filter
            (fun x => !(v.contains x))).length + 1 ≤ deps.length + 1 := by
        have h1 : ((deps.map (fun p => p.1)).dedup.filter
            (fun x => !(v.contains x))).length ≤ (deps.map (fun p => p.1)).dedup.length :=
          List.length_filter_le _ _
        have h2 : (deps.map (fun p => p.1)).dedup.length ≤ (deps.map (fun p => p.1)).length :=
          (List.dedup_sublist _).length_le
        simp only [List.length_map] at h2
        omega
      obtain ⟨v', hres⟩ := hasCycleF_backward_false hb (deps.length + 1) id v [] hid
        (by intro x hx; cases hx) hmeasure
      rw [hres]
      exact ih v'



/-- The loop spec forces pairwise distinct ids, disjoint from the seen set. -/
theorem validLoopSpec_nodup (blocks : List Block) (seen : List String)
    (h : validLoopSpec blocks seen = true) :
    (idsOf blocks).Nodup ∧ ∀ id ∈ idsOf blocks, id ∉ seen := by
  induction blocks generalizing seen with
  | nil => simp [idsOf]
  | cons b rest ih =>
    unfold validLoopSpec at h
    simp only [Bool.and_eq_true, and_assoc] at h
    obtain ⟨_, hnotseen, _, hrest⟩ := h
    obtain ⟨ihnodup, ihseen⟩ := ih _ hrest
    constructor
    · simp only [idsOf, List.map_cons, List.nodup_cons]
      refine ⟨?_, ihnodup⟩
      intro hmem
      exact absurd (List.mem_cons_self _ _) (ihseen b.ID hmem)
    · intro id hid
      simp only [idsOf, List.map_cons, List.mem_cons] at hid
      rcases hid with rfl | hid
      · simpa using hnotseen
      · intro hseen
        exact ihseen id hid (List.mem_cons_of_mem _ hseen)

/-- The loop spec plus absence of self-references gives the strict spec. -/
theorem validStrict_of_loop_no_self (blocks : List Block) :
    ∀ (seen : List String), validLoopSpec blocks seen = true →
      (∀ b ∈ blocks, b.FromBlock ≠ "" → b.FromBlock ≠ b.ID) →
      validStrict blocks seen = true := by
  induction blocks with
  | nil => intro seen _ _; rfl
  | cons b rest ih =>
    intro seen h hself
    unfold validLoopSpec at h
    unfold validStrict
    simp only [Bool.and_eq_true, and_assoc] at h ⊢
    obtain ⟨h1, h2, h3, h4⟩ := h
    refine ⟨h1, h2, ?_, ih _ h4 (fun c hc => hself c (List.mem_cons_of_mem _ hc))⟩
    unfold blockOKB at h3 ⊢
    simp only [Bool.and_eq_true, and_assoc] at h3 ⊢
    obtain ⟨p1, p2, p3, p4, p5, p6⟩ := h3
    refine ⟨p1, p2, ?_, p4, p5, p6⟩
    simp only [Bool.or_eq_true, List.elem_iff, List.mem_cons, decide_eq_true_eq] at p3 ⊢
    rcases p3 with p3 | p3 | p3
    · exact Or.inl p3
    · by_cases hfb : b.FromBlock = ""
      · exact Or.inl hfb
      · exact absurd p3 (hself b (List.mem_cons_self _ _) hfb)
    · exact Or.inr p3



/-- Under the strict spec every dependency edge points to a strictly earlier position. -/
theorem validStrict_backward (blocks : List Block) :
    ∀ (pref : List String), validStrict blocks pref.reverse = true →
      ∀ pr ∈ depsOf blocks,
        posIn (pref ++ idsOf blocks) pr.2 < posIn (pref ++ idsOf blocks) pr.1 := by
  induction blocks with
  | nil => intro pref _ pr hpr; cases hpr
  | cons b rest ih =>
    intro pref h pr hpr
    unfold validStrict at h
    simp only [Bool.and_eq_true, and_assoc] at h
    obtain ⟨hne, hnotseen, hok, hrest⟩ := h
    have hbid : b.ID ∉ pref := by
      intro hm
      have hc : pref.reverse.contains b.ID = true := by
        simp [List.elem_iff, List.mem_reverse, hm]
      rw [hc] at hnotseen
      exact Bool.noConfusion hnotseen
    have hL : pref ++ idsOf (b :: rest) = pref ++ b.ID :: idsOf rest := rfl
    unfold depsOf at hpr
    simp only [List.filterMap_cons] at hpr
    by_cases hfb : b.FromBlock = ""
    · simp only [hfb] at hpr
      rw [if_neg (by simp)] at hpr
      have hrec := ih (pref ++ [b.ID]) (by simpa [List.reverse_append] using hrest) pr hpr
      simpa [List.append_assoc, idsOf] using hrec
    · rw [if_pos (by simpa using hfb)] at hpr
      rcases List.mem_cons.mp hpr with rfl | hpr'
      · -- the head edge (b.ID, b.FromBlock)
        simp only
        unfold blockOKB at hok
        simp only [Bool.and_eq_true, and_assoc] at hok
        obtain ⟨_, _, p3, _⟩ := hok
        have hfbseen : b.FromBlock ∈ pref := by
          rcases (by simpa [List.elem_iff, hfb] using p3 :
            b.FromBlock = "" ∨ b.FromBlock ∈ pref.reverse) with he | hm
          · exact absurd he hfb
          · simpa [List.mem_reverse] using hm
        rw [hL]
        have hlt1 : posIn (pref ++ b.ID :: idsOf rest) b.FromBlock = posIn pref b.FromBlock :=
          posIn_append_of_mem _ hfbseen
        have hlt2 : posIn (pref ++ b.ID :: idsOf rest) b.ID = pref.length :=
          posIn_append_not_mem _ hbid
        rw [hlt1, hlt2]
        exact posIn_lt_length hfbseen
      · have hrec := ih (pref ++ [b.ID]) (by simpa [List.reverse_append] using hrest) pr hpr'
        simpa [List.append_assoc, idsOf] using hrec

/-- Validate accepts exactly the projects with nonempty version, name and block list whose blocks satisfy the strict per-block conditions. -/
theorem validate_ok_char (p : Project) :
    Validate p = Except.ok () ↔
      (p.Version ≠ "" ∧ p.Name ≠ "" ∧ p.Blocks ≠ [] ∧ validStrict p.Blocks [] = true) := by
  unfold Validate
  split_ifs with hV hN hE
  · simp [hV]
  · simp [hN]
  · simp only [List.isEmpty_iff] at hE
    simp [hE]
  · simp only [List.isEmpty_iff] at hE
    rcases hloop : validateBlocksLoop p.Blocks [] with e | u
    · constructor
      · intro h
        exact absurd h (by simp)
      · intro h
        exfalso
        have := (validateBlocksLoop_ok_iff p.Blocks []).mpr
          (validLoopSpec_of_validStrict _ _ h.2.2.2)
        rw [hloop] at this
        exact Except.noConfusion this
    · cases u
      have hls := (validateBlocksLoop_ok_iff p.Blocks []).mp hloop
      constructor
      · intro h
        refine ⟨hV, hN, hE, ?_⟩
        apply validStrict_of_loop_no_self _ _ hls
        intro b hb hfb
        by_cases hself : b.FromBlock = b.ID
        swap
        · exact hself
        exfalso
        have hnodup := (validLoopSpec_nodup _ _ hls).1
        have hlook : depsLookup (depsOf p.Blocks) b.ID = some b.ID := by
          have := depsLookup_selfBlock hnodup hb hfb
          rw [hself] at this
          exact this
        have hmem : b.ID ∈ (depsOf p.Blocks).map (fun q => q.1) :=
          List.mem_map.mpr ⟨(b.ID, b.ID), depsLookup_mem hlook, rfl⟩
        obtain ⟨e, he⟩ := checkCircGo_selfloop_err hlook
          ((depsOf p.Blocks).map (fun q => q.1)) [] [] hmem (by simp)
        unfold checkCircularDependencies at h
        rw [he] at h
        exact Except.noConfusion h
      · intro h
        unfold checkCircularDependencies
        apply checkCircGo_backward_ok (posIn (idsOf p.Blocks))
        intro a q hq
        have := validStrict_backward p.Blocks [] (by simpa using h.2.2.2) (a, q)
          (depsLookup_mem hq)
        simpa using this



/-- Following a from_block chain strictly decreases the position measure. -/
theorem linksB_pos_lt {blocks : List Block} {pos : String → Nat}
    (hb : ∀ a q, depsLookup (depsOf blocks) a = some q → pos q < pos a)
    (hnodup : (idsOf blocks).Nodup) (hids : ∀ b ∈ blocks, b.ID ≠ "") :
    ∀ (l : List Block) (first hd : Block), l.head? = some hd →
      linksB l first = true → (∀ b ∈ l, b ∈ blocks) → first ∈ blocks →
      pos first.ID < pos hd.ID := by
  intro l
  induction l with
  | nil => intro first hd h _ _ _; exact Option.noConfusion h
  | cons b rest ih =>
    intro first hd hhd hlinks hmem hfirst
    injection hhd with hhd
    subst hhd
    cases rest with
    | nil =>
      have hfb : b.FromBlock = first.ID := by simpa [linksB] using hlinks
      have hfbne : b.FromBlock ≠ "" := by
        rw [hfb]
        exact hids first hfirst
      have hlook : depsLookup (depsOf blocks) b.ID = some b.FromBlock :=
        depsLookup_selfBlock hnodup (hmem b (List.mem_cons_self _ _)) hfbne
      have := hb _ _ hlook
      rw [hfb] at this
      exact this
    | cons c rest2 =>
      have h1 : b.FromBlock = c.ID ∧ linksB (c :: rest2) first = true := by
        simpa [linksB] using hlinks
      have hcmem : c ∈ blocks := hmem c (List.mem_cons_of_mem _ (List.mem_cons_self _ _))
      have hfbne : b.FromBlock ≠ "" := by
        rw [h1.1]
        exact hids c hcmem
      have hlook : depsLookup (depsOf blocks) b.ID = some b.FromBlock :=
        depsLookup_selfBlock hnodup (hmem b (List.mem_cons_self _ _)) hfbne
      have hlt1 : pos c.ID < pos b.ID := by
        have := hb _ _ hlook
        rw [h1.1] at this
        exact this
      have hlt2 : pos first.ID < pos c.ID :=
        ih first c rfl h1.2 (fun x hx => hmem x (List.mem_cons_of_mem _ hx)) hfirst
      exact Nat.lt_trans hlt2 hlt1

/-- A project whose from_block edges contain a cycle never validates. -/
theorem validate_rejects_cycle_aux (p : Project) (l : List Block)
    (hcyc : isCycleListB l = true) (hmem : ∀ b ∈ l, b ∈ p.Blocks) :
    Validate p ≠ Except.ok () := by
  intro hok
  obtain ⟨_, _, _, hvs⟩ := (validate_ok_char p).mp hok
  obtain ⟨hnodup, _, hids⟩ := validStrict_ids_props _ _ hvs
  have hb : ∀ a q, depsLookup (depsOf p.Blocks) a = some q →
      posIn (idsOf p.Blocks) q < posIn (idsOf p.Blocks) a := by
    intro a q hq
    have := validStrict_backward p.Blocks [] (by simpa using hvs) (a, q) (depsLookup_mem hq)
    simpa using this
  unfold isCycleListB at hcyc
  cases l with
  | nil => exact Bool.noConfusion hcyc
  | cons first lrest =>
    have hfirst : first ∈ p.Blocks := hmem first (List.mem_cons_self _ _)
    have := linksB_pos_lt hb hnodup hids (first :: lrest) first first rfl hcyc hmem hfirst
    omega


/-- Claim C6 (amended): `Validate` accepts exactly the projects with
nonempty version, name and block list whose blocks, scanned in order, have
nonempty pairwise-distinct ids, set exactly one of `from`/`from_block`,
reference with `from_block` only a block that appears strictly earlier in
the list, and pass the network-mode, env-format and mount checks
(`validStrict`). In particular a `from_block` that references a block
appearing later in the list is rejected: see the counterexample. -/
theorem validate_iff_strict (p : Project) :
    Validate p = Except.ok () ↔
      (p.Version ≠ "" ∧ p.Name ≠ "" ∧ p.Blocks ≠ [] ∧ validStrict p.Blocks [] = true) :=
  validate_ok_char p

/-- Claim C6 counterexample: `projFwd` satisfies every condition the claim
lists — nonempty version, name and blocks, unique nonempty ids, exactly one
of from/from_block per block, a `from_block` that equals the id of a block
in the list, and an acyclic graph (its only edge is app -> base) — yet
`Validate` rejects it, because the referenced block appears later in the
list. -/
theorem validate_rejects_forward_reference :
    projFwd.Version ≠ "" ∧ projFwd.Name ≠ "" ∧ projFwd.Blocks ≠ [] ∧
    (∀ b ∈ projFwd.Blocks, b.ID ≠ "") ∧ (idsOf projFwd.Blocks).Nodup ∧
    (∀ b ∈ projFwd.Blocks,
      (b.From = "" ∧ b.FromBlock ≠ "") ∨ (b.From ≠ "" ∧ b.FromBlock = "")) ∧
    (∀ b ∈ projFwd.Blocks, b.FromBlock ≠ "" → b.FromBlock ∈ idsOf projFwd.Blocks) ∧
    depsOf projFwd.Blocks = [("app", "base")] ∧
    Validate projFwd = Except.error "block app: from_block 'base' does not exist" :=
  ⟨by decide, by decide, by decide, by decide, by decide, by decide, by decide, rfl, rfl⟩

/-- Claim C6 witness: the characterization applied to the two concrete
projects `projW` (accepted) and `projCyc` (whose strict spec fails). -/
theorem validate_iff_witness :
    Validate projW = Except.ok () ∧ Validate projCyc ≠ Except.ok () := by
  constructor
  · exact (validate_iff_strict projW).mpr ⟨by decide, by decide, by decide, by decide⟩
  · intro h
    have := (validate_iff_strict projCyc).mp h
    exact absurd this.2.2.2 (by decide)



/-- resolveReturn never reports fuel exhaustion. -/
theorem resolveReturn_no_fuelOut (cfg : EngCfg) (b : Block) (dg : String) (s : EngState) :
    (resolveReturn cfg b dg s).1 ≠ Res.fuelOut := by
  unfold resolveReturn
  split
  · simp
  · split <;> simp

/-- findBlock returns a block carrying the looked-up id. -/
theorem findBlock_id {proj : Project} {id : String} {b : Block}
    (h : findBlock proj id = some b) : b.ID = id := by
  have := List.find?_some h
  simpa using this

/-- findBlock returns a block of the project. -/
theorem findBlock_mem {proj : Project} {id : String} {b : Block}
    (h : findBlock proj id = some b) : b ∈ proj.Blocks :=
  List.mem_of_find?_eq_some h

/-- After a successful parent resolution, the block is shallowly resolvable in the resulting state: its parent is an image, a pin, or a block whose recorded digest the resolution itself just checked nonempty. -/
theorem resolveBody_ok_shallow {cfg : EngCfg}
    {rRec : Block → List String → EngState → Res (String × String) × EngState}
    {uRec : String → RunOptions → EngState → Res Unit × EngState}
    {block : Block} {visited : List String} {s : EngState}
    {pr : String × String} {s' : EngState}
    (h : resolveBody cfg rRec uRec block visited s = (Res.ok pr, s')) :
    shallowOK cfg block s' := by
  have hRR : ∀ (dg : String) (s₀ : EngState),
      resolveReturn cfg block dg s₀ = (Res.ok pr, s') →
      (findBlock cfg.project block.FromBlock).isSome ∧ s' = s₀ := by
    intro dg s₀ hh
    unfold resolveReturn at hh
    cases hF : findBlock cfg.project block.FromBlock with
    | none => rw [hF] at hh; exact absurd hh (by simp)
    | some pb =>
      rw [hF] at hh
      constructor
      · simp
      · rcases pr with ⟨r, d⟩
        exact (resolveReturn_ok (by unfold resolveReturn; rw [hF]; exact hh)).2
  unfold resolveBody at h
  split at h
  · rename_i hFrom
    left
    simpa using hFrom
  · rename_i hFrom
    split at h
    · rename_i hFB
      split at h
      · exact absurd h (by simp)
      · split at h
        · rename_i hPin
          split at h
          · exact absurd h (by simp)
          · rename_i parentBlock hFind
            right
            refine ⟨by simpa using hFB, by simp [hFind], Or.inl (by simpa using hPin)⟩
        · rename_i hPin
          simp only at h
          by_cases hD : ((s.store.blockStates block.FromBlock).getD
              (emptyBlockState block.FromBlock)).Digest = ""
          · rw [if_pos hD] at h
            cases hFind : findBlock cfg.project block.FromBlock with
            | none => rw [hFind] at h; exact absurd h (by simp)
            | some parentBlock =>
              rw [hFind] at h
              try dsimp only at h
              rcases hr1 : rRec parentBlock (block.ID :: visited) s with ⟨r1, s1⟩
              rw [hr1] at h
              try dsimp only at h
              cases r1 with
              | err e => exact absurd h (by simp)
              | fuelOut => exact absurd h (by simp)
              | ok val =>
                try dsimp only at h
                rcases hr2 : uRec block.FromBlock
                    { Force := false, KeepContainer := false } s1 with ⟨r2, s2⟩
                rw [hr2] at h
                try dsimp only at h
                cases r2 with
                | err e => exact absurd h (by simp)
                | fuelOut => exact absurd h (by simp)
                | ok u =>
                  try dsimp only at h
                  cases hReload : s2.store.blockStates block.FromBlock with
                  | none => rw [hReload] at h; exact absurd h (by simp)
                  | some st2 =>
                    rw [hReload] at h
                    try dsimp only at h
                    by_cases hD2 : st2.Digest = ""
                    · rw [if_pos hD2] at h
                      exact absurd h (by simp)
                    · rw [if_neg hD2] at h
                      obtain ⟨hF, hs⟩ := hRR _ _ h
                      rw [hs]
                      exact Or.inr ⟨by simpa using hFB, hF,
                        Or.inr ⟨st2, hReload, hD2⟩⟩
          · rw [if_neg hD] at h
            obtain ⟨hF, hs⟩ := hRR _ _ h
            rw [hs]
            right
            refine ⟨by simpa using hFB, hF, Or.inr ?_⟩
            cases hst : s.store.blockStates block.FromBlock with
            | none =>
              exfalso
              rw [hst] at hD
              exact hD rfl
            | some st0 =>
              refine ⟨st0, rfl, ?_⟩
              rw [hst] at hD
              simpa using hD
    · exact absurd h (by simp)



/-- A shallowly resolvable block is resolved without consulting the recursive entry points, hence without fuel exhaustion. -/
theorem resolveBody_shallow_noFuelOut {cfg : EngCfg} {block : Block} {s : EngState}
    (hS : shallowOK cfg block s)
    (rRec : Block → List String → EngState → Res (String × String) × EngState)
    (uRec : String → RunOptions → EngState → Res Unit × EngState)
    (visited : List String) :
    (resolveBody cfg rRec uRec block visited s).1 ≠ Res.fuelOut := by
  unfold resolveBody
  by_cases hFrom : block.From = ""
  · rcases hS with hF | ⟨hFB, hFind, hRest⟩
    · exact absurd hFrom hF
    · rw [if_neg (by simp [hFrom])]
      rw [if_pos (by simpa using hFB)]
      by_cases hVis : visited.contains block.ID = true
      · rw [if_pos hVis]
        simp
      · rw [if_neg hVis]
        by_cases hPin : block.FromBlockVersion = ""
        · rw [if_neg (by simp [hPin])]
          rcases hRest with hP | ⟨st0, hst0, hd0⟩
          · exact absurd hPin hP
          · simp only [hst0, Option.getD_some]
            rw [if_neg hd0]
            exact resolveReturn_no_fuelOut cfg block st0.Digest s
        · rw [if_pos (by simpa using hPin)]
          cases findBlock cfg.project block.FromBlock with
          | none => simp
          | some pb => split <;> (try split) <;> simp
  · rw [if_pos (by simpa using hFrom)]
    by_cases hp : cfg.docker.pullOk block.From = true
    · rw [if_pos hp]
      cases cfg.docker.inspectDigest block.From <;> simp
    · rw [if_neg hp]
      simp

/-- runBody reports fuel exhaustion only when its parent resolution does. -/
theorem runBody_fuelOut {cfg : EngCfg}
    {rRec : Block → List String → EngState → Res (String × String) × EngState}
    {id : String} {opts : RunOptions} {s : EngState}
    (h : (runBody cfg rRec id opts s).1 = Res.fuelOut) :
    ∃ block, findBlock cfg.project id = some block ∧ (rRec block [] s).1 = Res.fuelOut := by
  unfold runBody at h
  cases hFind : findBlock cfg.project id with
  | none => rw [hFind] at h; exact absurd h (by simp)
  | some block =>
    rw [hFind] at h
    try dsimp only at h
    refine ⟨block, rfl, ?_⟩
    rcases hr : rRec block [] s with ⟨r1, s1⟩
    rw [hr] at h
    try dsimp only at h
    cases r1 with
    | fuelOut => rfl
    | err e => exact absurd h (by simp)
    | ok pr =>
      exfalso
      rcases pr with ⟨ref, pd⟩
      try dsimp only at h
      split at h
      · exact absurd h (by simp)
      · rcases hbb : buildBlock cfg block ref
            (clearLogs id (saveBlockState id
              { ID := id, Status := BlockStatus.running, Digest := "",
                Hash := ComputeBlockHash block pd, Timestamp := s1.clock, ExitCode := 0,
                Duration := 0, Error := "" } { s1 with clock := s1.clock + 1 })) with ⟨rb, sb⟩
        rw [hbb] at h
        cases rb with
        | error e => exact absurd h (by simp)
        | ok digest =>
          exact absurd h (by simp)



/-- Running a shallowly resolvable block needs only constant fuel. -/
theorem runBlock_shallow_noFuelOut (cfg : EngCfg) (fuel : Nat) (id : String)
    (opts : RunOptions) (s : EngState) (block : Block)
    (hFind : findBlock cfg.project id = some block) (hS : shallowOK cfg block s)
    (hfuel : 2 ≤ fuel) : ((engine cfg fuel).2 id opts s).1 ≠ Res.fuelOut := by
  intro h
  obtain ⟨m, rfl⟩ : ∃ m, fuel = m + 1 := ⟨fuel - 1, by omega⟩
  obtain ⟨b', hF', hres'⟩ := runBody_fuelOut h
  rw [hFind] at hF'
  injection hF' with hF'
  subst hF'
  obtain ⟨k, rfl⟩ : ∃ k, m = k + 1 := ⟨m - 1, by omega⟩
  exact resolveBody_shallow_noFuelOut hS (engine cfg k).1 (engine cfg k).2 [] hres'

/-- Visiting a present, unvisited block id strictly decreases the unresolved count. -/
theorem unresolvedCount_cons (cfg : EngCfg) {block : Block} {v : List String}
    (hmem : block ∈ cfg.project.Blocks) (hv : ¬v.contains block.ID = true) :
    unresolvedCount cfg (block.ID :: v) + 1 ≤ unresolvedCount cfg v := by
  unfold unresolvedCount
  have hidmem : block.ID ∈ idsOf cfg.project.Blocks :=
    List.mem_map_of_mem Block.ID hmem
  have hid : block.ID ∉ v := by simpa [List.elem_iff] using hv
  exact filter_notin_cons_length v block.ID _ (List.nodup_dedup _)
    (List.mem_dedup.mpr hidmem) hid

/-- Parent resolution never exhausts fuel that exceeds three plus the number of unvisited project ids: the recursion on the visited set is bounded and each nested parent execution is shallow. -/
theorem resolve_noFuelOut (cfg : EngCfg) :
    ∀ (fuel : Nat) (block : Block) (v : List String) (s : EngState),
      block ∈ cfg.project.Blocks → unresolvedCount cfg v + 3 ≤ fuel →
      ((engine cfg fuel).1 block v s).1 ≠ Res.fuelOut := by
  intro fuel
  induction fuel using Nat.strong_induction_on with
  | _ fuel ih =>
    intro block v s hmem hfuel
    obtain ⟨m, rfl⟩ : ∃ m, fuel = m + 1 := ⟨fuel - 1, by omega⟩
    show (resolveBody cfg (engine cfg m).1 (engine cfg m).2 block v s).1 ≠ Res.fuelOut
    unfold resolveBody
    by_cases hFrom : block.From = ""
    · rw [if_neg (by simp [hFrom])]
      by_cases hFB : block.FromBlock = ""
      · rw [if_neg (by simp [hFB])]
        simp
      · rw [if_pos (by simpa using hFB)]
        by_cases hVis : v.contains block.ID = true
        · rw [if_pos hVis]
          simp
        · rw [if_neg hVis]
          by_cases hPin : block.FromBlockVersion = ""
          · rw [if_neg (by simp [hPin])]
            by_cases hD : ((s.store.blockStates block.FromBlock).getD
                (emptyBlockState block.FromBlock)).Digest = ""
            · rw [if_pos hD]
              cases hFind : findBlock cfg.project block.FromBlock with
              | none => simp
              | some parentBlock =>
                try dsimp only
                have hpmem : parentBlock ∈ cfg.project.Blocks := findBlock_mem hFind
                have hcount := unresolvedCount_cons cfg hmem hVis
                rcases hr1 : (engine cfg m).1 parentBlock (block.ID :: v) s with ⟨r1, s1⟩
                cases r1 with
                | err e => simp
                | fuelOut =>
                  exfalso
                  have := ih m (by omega) parentBlock (block.ID :: v) s hpmem (by omega)
                  rw [hr1] at this
                  exact this rfl
                | ok val =>
                  try dsimp only
                  have hS : shallowOK cfg parentBlock s1 := by
                    obtain ⟨k, rfl⟩ : ∃ k, m = k + 1 := ⟨m - 1, by omega⟩
                    exact resolveBody_ok_shallow hr1
                  rcases hr2 : (engine cfg m).2 block.FromBlock
                      { Force := false, KeepContainer := false } s1 with ⟨r2, s2⟩
                  cases r2 with
                  | err e => simp
                  | fuelOut =>
                    exfalso
                    have hFind' : findBlock cfg.project block.FromBlock = some parentBlock :=
                      hFind
                    have := runBlock_shallow_noFuelOut cfg m block.FromBlock
                      { Force := false, KeepContainer := false } s1 parentBlock hFind' hS
                      (by omega)
                    rw [hr2] at this
                    exact this rfl
                  | ok u =>
                    try dsimp only
                    cases s2.store.blockStates block.FromBlock with
                    | none => simp
                    | some st2 =>
                      try dsimp only
                      by_cases hD2 : st2.Digest = ""
                      · rw [if_pos hD2]
                        simp
                      · rw [if_neg hD2]
                        exact resolveReturn_no_fuelOut cfg block st2.Digest s2
            · rw [if_neg hD]
              exact resolveReturn_no_fuelOut cfg block _ s
          · rw [if_pos (by simpa using hPin)]
            cases findBlock cfg.project block.FromBlock with
            | none => simp
            | some pb => split <;> (try split) <;> simp
    · rw [if_pos (by simpa using hFrom)]
      by_cases hp : cfg.docker.pullOk block.From = true
      · rw [if_pos hp]
        cases cfg.docker.inspectDigest block.From <;> simp
      · rw [if_neg hp]
        simp

/-- RunBlock never exhausts fuel that exceeds four plus the number of project ids. -/
theorem run_noFuelOut (cfg : EngCfg) (fuel : Nat) (id : String) (opts : RunOptions)
    (s : EngState) (hfuel : unresolvedCount cfg [] + 4 ≤ fuel) :
    (runBlock cfg fuel id opts s).1 ≠ Res.fuelOut := by
  intro h
  obtain ⟨m, rfl⟩ : ∃ m, fuel = m + 1 := ⟨fuel - 1, by omega⟩
  obtain ⟨b, hF, hres⟩ := runBody_fuelOut h
  have := resolve_noFuelOut cfg m b [] s (findBlock_mem hF) (by omega)
  exact this hres



/-- Walking an unpinned, digestless from_block chain whose end links back into the chain (or the visited set) terminates in a wrapped circular-dependency error, with the state untouched. -/
theorem resolve_fresh_chain_err (cfg : EngCfg) (t : String) (tb : Block)
    (hT : t ≠ "") (hFindT : findBlock cfg.project t = some tb) (hTFrom : tb.From = "")
    (hTFB : tb.FromBlock ≠ "") :
    ∀ (rest : List Block) (b : Block) (v : List String) (fuel : Nat) (s : EngState),
      chainTo (b :: rest) t →
      (∀ c ∈ b :: rest, c.From = "" ∧ c.FromBlockVersion = "" ∧ c.ID ≠ "" ∧
        findBlock cfg.project c.ID = some c ∧ stateDigestEmpty s c.ID) →
      stateDigestEmpty s t →
      (∀ c ∈ b :: rest, c.ID ∉ v) →
      ((b :: rest).map Block.ID).Nodup →
      (t ∈ v ∨ t ∈ (b :: rest).map Block.ID) →
      (b :: rest).length + 1 ≤ fuel →
      ∃ e, resolveParentWithVisited cfg fuel b v s = (Res.err e, s) ∧
        rootCause e = EngErr.circular t := by
  intro rest
  induction rest with
  | nil =>
    intro b v fuel s hchain hprops hEt hdisj hnodup htin hfuel
    obtain ⟨hbFrom, hbPin, hbNe, hbFind, hbEmpty⟩ := hprops b (List.mem_cons_self _ _)
    have hfb : b.FromBlock = t := hchain
    simp only [List.length_cons, List.length_nil] at hfuel
    obtain ⟨f, rfl⟩ : ∃ f, fuel = f + 1 := ⟨fuel - 1, by omega⟩
    rw [resolve_succ]
    unfold resolveBody
    rw [if_neg (by simp [hbFrom])]
    rw [if_pos (by simp [hfb]; exact hT)]
    rw [if_neg (by simpa [List.elem_iff] using hdisj b (List.mem_cons_self _ _))]
    rw [if_neg (by simp [hbPin])]
    unfold stateDigestEmpty at hEt
    rw [if_pos (by rw [hfb]; exact hEt)]
    rw [hfb, hFindT]
    try dsimp only
    obtain ⟨g, rfl⟩ : ∃ g, f = g + 1 := ⟨f - 1, by omega⟩
    have hrec : resolveParentWithVisited cfg (g + 1) tb (b.ID :: v) s =
        (Res.err (EngErr.circular tb.ID), s) := by
      rw [resolve_succ]
      unfold resolveBody
      rw [if_neg (by simp [hTFrom])]
      rw [if_pos (by simpa using hTFB)]
      rw [if_pos ?hc]
      case hc =>
        have hid : tb.ID = t := findBlock_id hFindT
        rcases htin with hin | hin
        · simp only [List.elem_iff, List.mem_cons]
          exact Or.inr (hid ▸ hin)
        · simp only [List.map_cons, List.mem_cons] at hin
          rcases hin with hin | hin
          · simp only [List.elem_iff, List.mem_cons]
            exact Or.inl (by rw [hid, hin])
          · cases hin
    rw [hrec]
    try dsimp only
    exact ⟨_, rfl, by rw [findBlock_id hFindT]; simp [rootCause]⟩
  | cons c rest2 ih =>
    intro b v fuel s hchain hprops hEt hdisj hnodup htin hfuel
    obtain ⟨hbFrom, hbPin, hbNe, hbFind, hbEmpty⟩ := hprops b (List.mem_cons_self _ _)
    obtain ⟨hcFrom, hcPin, hcNe, hcFind, hcEmpty⟩ :=
      hprops c (List.mem_cons_of_mem _ (List.mem_cons_self _ _))
    have hfb : b.FromBlock = c.ID := hchain.1
    simp only [List.length_cons] at hfuel
    obtain ⟨f, rfl⟩ : ∃ f, fuel = f + 1 := ⟨fuel - 1, by omega⟩
    rw [resolve_succ]
    unfold resolveBody
    rw [if_neg (by simp [hbFrom])]
    rw [if_pos (by simp [hfb]; exact hcNe)]
    rw [if_neg (by simpa [List.elem_iff] using hdisj b (List.mem_cons_self _ _))]
    rw [if_neg (by simp [hbPin])]
    unfold stateDigestEmpty at hcEmpty
    rw [if_pos (by rw [hfb]; exact hcEmpty)]
    rw [hfb, hcFind]
    try dsimp only
    have hnodup2 : ((c :: rest2).map Block.ID).Nodup := by
      simp only [List.map_cons, List.nodup_cons] at hnodup ⊢
      exact hnodup.2
    have hbNotMem : b.ID ∉ (c :: rest2).map Block.ID := by
      simp only [List.map_cons, List.nodup_cons] at hnodup
      exact hnodup.1
    obtain ⟨e, hres, hroot⟩ := ih c (b.ID :: v) f s hchain.2
      (fun x hx => hprops x (List.mem_cons_of_mem _ hx))
      hEt
      (by
        intro x hx
        simp only [List.mem_cons, not_or]
        constructor
        · intro he
          exact hbNotMem (he ▸ List.mem_map_of_mem Block.ID hx)
        · exact hdisj x (List.mem_cons_of_mem _ hx))
      hnodup2
      (by
        rcases htin with hin | hin
        · exact Or.inl (List.mem_cons_of_mem _ hin)
        · rw [List.map_cons, List.mem_cons] at hin
          rcases hin with hin | hin
          · exact Or.inl (by rw [hin]; exact List.mem_cons_self _ _)
          · exact Or.inr hin)
      (by simp only [List.length_cons]; omega)
    rw [hres]
    try dsimp only
    exact ⟨_, rfl, by simpa [rootCause] using hroot⟩



/-- A linksB cycle witnesses a chainTo chain back to the first block's id. -/
theorem linksB_chainTo : ∀ (l : List Block) (first : Block),
    linksB l first = true → chainTo l first.ID
  | [], _, _ => trivial
  | [b], first, h => by simpa [linksB, chainTo] using h
  | b :: c :: rest, first, h => by
      simp only [linksB, Bool.and_eq_true, beq_iff_eq] at h
      exact ⟨h.1, by simpa [linksB] using linksB_chainTo (c :: rest) first (by simp [linksB, h.2])⟩

/-- Claim C5 (amended): (1) load-time validation rejects every project whose
from_block edges contain a cycle; (2,3) runtime resolution never diverges —
with fuel linear in the number of blocks, neither `runBlock` nor
`resolveParentWithVisited` ever exhausts it, on any state; and (4) with
validation bypassed, resolving any block of a cycle whose blocks are
unpinned and have no recorded digest terminates and returns a
circular-dependency error. When a block of the cycle carries a stale
recorded digest, resolution may instead terminate successfully: see the
counterexample. -/
theorem cycle_rejected_and_resolution_terminates :
    (∀ (p : Project) (l : List Block), isCycleListB l = true →
      (∀ b ∈ l, b ∈ p.Blocks) → Validate p ≠ Except.ok ()) ∧
    (∀ (cfg : EngCfg) (fuel : Nat) (id : String) (opts : RunOptions) (s : EngState),
      unresolvedCount cfg [] + 4 ≤ fuel →
      (runBlock cfg fuel id opts s).1 ≠ Res.fuelOut) ∧
    (∀ (cfg : EngCfg) (fuel : Nat) (block : Block) (v : List String) (s : EngState),
      block ∈ cfg.project.Blocks → unresolvedCount cfg v + 3 ≤ fuel →
      (resolveParentWithVisited cfg fuel block v s).1 ≠ Res.fuelOut) ∧
    (∀ (cfg : EngCfg) (b : Block) (rest : List Block) (fuel : Nat) (s : EngState),
      isCycleListB (b :: rest) = true →
      (∀ c ∈ b :: rest, c.From = "" ∧ c.FromBlockVersion = "" ∧ c.ID ≠ "" ∧
        findBlock cfg.project c.ID = some c ∧ stateDigestEmpty s c.ID) →
      ((b :: rest).map Block.ID).Nodup →
      (b :: rest).length + 1 ≤ fuel →
      ∃ e, resolveParentWithVisited cfg fuel b [] s = (Res.err e, s) ∧
        rootCause e = EngErr.circular b.ID) := by
  refine ⟨?_, ?_, ?_, ?_⟩
  · intro p l hcyc hmem
    exact validate_rejects_cycle_aux p l hcyc hmem
  · intro cfg fuel id opts s hfuel
    exact run_noFuelOut cfg fuel id opts s hfuel
  · intro cfg fuel block v s hm hf
    exact resolve_noFuelOut cfg fuel block v s hm hf
  · intro cfg b rest fuel s hcyc hprops hnodup hfuel
    have hchain : chainTo (b :: rest) b.ID := linksB_chainTo (b :: rest) b (by simpa [isCycleListB] using hcyc)
    obtain ⟨hbFrom, hbPin, hbNe, hbFind, hbEmpty⟩ := hprops b (List.mem_cons_self _ _)
    have hbFB : b.FromBlock ≠ "" := by
      cases rest with
      | nil =>
        have : b.FromBlock = b.ID := hchain
        rw [this]
        exact hbNe
      | cons c rest2 =>
        have : b.FromBlock = c.ID := hchain.1
        rw [this]
        exact (hprops c (List.mem_cons_of_mem _ (List.mem_cons_self _ _))).2.2.1
    exact resolve_fresh_chain_err cfg b.ID b hbNe hbFind hbFrom hbFB rest b [] fuel s
      hchain hprops hbEmpty (by intro c _; simp) hnodup
      (Or.inr (by simp)) hfuel

/-- Claim C5 counterexample: the project a <-> b has a from_block cycle, yet
with a stale recorded digest on block `a`, runtime resolution of block `b`
terminates successfully with that digest instead of returning a
circular-dependency error. -/
theorem cycle_with_stale_digest_resolves_ok :
    isCycleListB [blkB, blkA] = true ∧
    (∀ b ∈ [blkB, blkA], b ∈ projCyc.Blocks) ∧
    ((sStale.store.blockStates "a").map BlockState.Digest) = some "sha:old" ∧
    resolveParentWithVisited cfgCyc 10 blkB [] sStale =
      (Res.ok ("sha:old", "sha:old"), sStale) :=
  ⟨by decide, by decide, rfl, rfl⟩

/-- Claim C5 witness: the three provable parts applied to the concrete
two-block cycle: validation rejects it, fuel 10 suffices for any run, and
fresh-state resolution of `a` reports the circular dependency. -/
theorem cycle_detection_witness :
    Validate projCyc ≠ Except.ok () ∧
    (runBlock cfgCyc 10 "a" { Force := false, KeepContainer := false } s0).1 ≠ Res.fuelOut ∧
    ∃ e, resolveParentWithVisited cfgCyc 3 blkA [] s0 = (Res.err e, s0) ∧
      rootCause e = EngErr.circular "a" := by
  refine ⟨?_, ?_, ?_⟩
  · exact cycle_rejected_and_resolution_terminates.1 projCyc [blkA, blkB] (by decide)
      (by decide)
  · exact cycle_rejected_and_resolution_terminates.2.1 cfgCyc 10 "a"
      { Force := false, KeepContainer := false } s0 (by decide)
  · exact cycle_rejected_and_resolution_terminates.2.2.2 cfgCyc blkA [blkB] 3 s0
      (by decide)
      (by
        intro c hc
        rcases List.mem_cons.mp hc with rfl | hc
        · exact ⟨rfl, rfl, by decide, rfl, rfl⟩
        · rcases List.mem_cons.mp hc with rfl | hc
          · exact ⟨rfl, rfl, by decide, rfl, rfl⟩
          · cases hc)
      (by decide) (by decide)


end Dockstep
